import Mathlib

/-!
Verification of the Sleeper-league power-rankings generator
(`power_rankings_gen.py`).

The Python program is embedded shallowly.  Dictionaries become association
lists (`List (Nat × _)`, in insertion order) or finitely supported functions
guarded by an explicit key set; fallible runtime operations (dict lookup of a
missing key, list indexing out of range, `statistics.mean`/`stdev` on a too
short list, division by zero) return `Except Err`; floating point numbers are
modelled as rationals; the week loops become folds in the `Except` monad, in
the source's iteration order.  The numeric value of the sample standard
deviation (a square root, hence irrational in general) is abstracted as a
function parameter `stdevVal`; no property proved below depends on its value,
only on when the source computes it at all.
-/

namespace SleeperPR

/-- Runtime failure kinds of the embedded Python operations. -/
inductive Err where
  | keyError
  | indexError
  | statisticsError
  | zeroDivisionError
  deriving DecidableEq, Repr

deriving instance DecidableEq for Except

/-- One weekly observation for one roster: `PerRosterWeeklyData` from the
source (points scored that week and the matchup grouping id). -/
structure PerRosterWeeklyData where
  points_scored : ℚ
  matchup_id : Nat
  deriving DecidableEq, Repr

instance : Inhabited PerRosterWeeklyData := ⟨⟨0, 0⟩⟩

/-- `PER_TEAM_WEEKLY_MATRIX_DATA`: roster id to its per-week observation
sequence, as an association list in dict insertion order. -/
abbrev Store := List (Nat × List PerRosterWeeklyData)

/-- One entry of the weekly matchups feed from the external data provider. -/
structure MatchupEntry where
  roster_id : Nat
  points : ℚ
  matchup_id : Nat
  deriving DecidableEq, Repr

/-- The module-level configuration constants of the source (its tunable
parameters, per the configuration surface). -/
structure Config where
  latest_finished_week : Nat
  win_weight_early_season : ℚ
  win_weight : ℚ
  win_early_season_week_threshold : Nat
  overall_win_weight : ℚ
  recent_wins_weight_early_season : ℚ
  recent_wins_weight : ℚ
  recent_wins_early_season_week_threshold : Nat
  recent_weeks_count : Nat
  consistency_weight_early_season : ℚ
  consistency_weight : ℚ
  consistency_early_season_week_threshold : Nat
  points_scored_weight : ℚ
  roster_strength_weight : ℚ

/-- The default constant values from the top of the source file
(`WIN_WEIGHT_EARLY_SEASON = 1.2 * LATEST_FINISHED_WEEK`, and so on). -/
def defaultConfig (latest : Nat) : Config where
  latest_finished_week := latest
  win_weight_early_season := (6 / 5 : ℚ) * latest
  win_weight := 3
  win_early_season_week_threshold := 3
  overall_win_weight := 2
  recent_wins_weight_early_season := 0
  recent_wins_weight := 3 / 2
  recent_wins_early_season_week_threshold := 8
  recent_weeks_count := 5
  consistency_weight_early_season := 0
  consistency_weight := 1 / 2
  consistency_early_season_week_threshold := 3
  points_scored_weight := 1
  roster_strength_weight := 3 / 2

/-- Python dict read `d[k]` as an `Option`, on an association list. -/
def dlookup {α : Type} (l : List (Nat × α)) (k : Nat) : Option α :=
  (l.find? (fun p => p.1 == k)).map Prod.snd

/-- Python dict read `d[k]`; a missing key raises `KeyError`. -/
def dlookupE {α : Type} (l : List (Nat × α)) (k : Nat) : Except Err α :=
  match dlookup l k with
  | some v => .ok v
  | none => .error .keyError

/-- Python list read `l[i]`; out of range raises `IndexError`. -/
def listIdx {α : Type} (l : List α) (i : Nat) : Except Err α :=
  match l.get? i with
  | some x => .ok x
  | none => .error .indexError

/-- A Python `for` loop that builds a list, with fallible body. -/
def emapM {α β : Type} (f : α → Except Err β) : List α → Except Err (List β)
  | [] => .ok []
  | a :: l => do
      let b ← f a
      let bs ← emapM f l
      .ok (b :: bs)

/-- A Python `for` loop that threads mutable state, with fallible body. -/
def efoldlM {σ α : Type} (f : σ → α → Except Err σ) : σ → List α → Except Err σ
  | s, [] => .ok s
  | s, a :: l => do
      let s1 ← f s a
      efoldlM f s1 l

/-- Pointwise update of a finitely supported accumulator. -/
def fupd (f : Nat → ℚ) (k : Nat) (v : ℚ) : Nat → ℚ :=
  fun x => if x = k then v else f x

/-- Read of an accumulator dict whose key set is `dirKeys` (the rosters the
accumulators were initialised for); any other key raises `KeyError`. -/
def accGet (dirKeys : List Nat) (f : Nat → ℚ) (k : Nat) : Except Err ℚ :=
  if k ∈ dirKeys then .ok (f k) else .error .keyError

/-- Stable insertion of one entry into a value-ascending sorted list. -/
def insertSorted (p : Nat × ℚ) : List (Nat × ℚ) → List (Nat × ℚ)
  | [] => [p]
  | q :: l => if q.2 < p.2 then q :: insertSorted p l else p :: q :: l

/-- Python `sorted(d.items(), key=lambda item: item[1])`: stable ascending
sort of the entries by value. -/
def sortByValue (l : List (Nat × ℚ)) : List (Nat × ℚ) :=
  l.foldr insertSorted []

/-- Competition ("min") rank of `v` within the column `vs`: one plus the
number of column entries strictly below `v`.  This is what
`scipy.stats.rankdata(..., method='min')` assigns to an occurrence of `v`. -/
def minRankN (vs : List Nat) (v : Nat) : Nat :=
  1 + (vs.filter (fun w => decide (w < v))).length

/-- `minRankN` for the (rational) value column. -/
def minRankQ (vs : List ℚ) (v : ℚ) : Nat :=
  1 + (vs.filter (fun w => decide (w < v))).length

/-- The source's `reverse_items` multiplier: values are negated when
`to_reverse == 0` (descending sense), kept when nonzero (ascending). -/
def adjustValue (to_reverse : Nat) (v : ℚ) : ℚ :=
  if to_reverse = 0 then -v else v

/-- Value rank the source's rank helper assigns to entry `p` of `to_rank`. -/
def assignedRank (to_rank : List (Nat × ℚ)) (to_reverse : Nat) (p : Nat × ℚ) : Nat :=
  minRankQ (to_rank.map fun q => adjustValue to_reverse q.2) (adjustValue to_reverse p.2)

/-- `rank_data_keyed_by_roster_id` from the source.  It builds the matrix
`[[roster_id, reverse_items * value], ...]` and ranks it with
`rankdata(axis=0, method='min')`, which ranks BOTH columns; the rebuilt dict
therefore maps the rank of each roster id (down column zero) to the rank of
its value (down column one). -/
def rank_data_keyed_by_roster_id (to_rank : List (Nat × ℚ)) (to_reverse : Nat) :
    List (Nat × Nat) :=
  to_rank.map fun p =>
    (minRankN (to_rank.map Prod.fst) p.1, assignedRank to_rank to_reverse p)

/-- The three mutable tallies of the record calculator (`overall_wins`,
`wins`, `recent_wins`), all initialised to zero on the directory keys. -/
structure RecState where
  overall_wins : Nat → ℚ
  wins : Nat → ℚ
  recent_wins : Nat → ℚ

/-- `1 if x.points_scored > y.points_scored else 0`. -/
def winIndicator (x y : PerRosterWeeklyData) : ℚ :=
  if x.points_scored > y.points_scored then 1 else 0

/-- Loop body of the record calculator for week `i` and the ordered pair of
distinct rosters `(roster_id, other)`: always tallies an overall win on a
higher score; on a shared matchup id additionally tallies a win, and a recent
win when the week is inside the recency window. -/
def recordPairStep (dirKeys : List Nat) (recent_week_threshold : ℤ) (i : Nat)
    (roster_id : Nat) (roster_data other_roster_data : List PerRosterWeeklyData)
    (st : RecState) : Except Err RecState := do
  let ov ← accGet dirKeys st.overall_wins roster_id
  let x ← listIdx roster_data i
  let y ← listIdx other_roster_data i
  let st1 : RecState :=
    { st with overall_wins := fupd st.overall_wins roster_id (ov + winIndicator x y) }
  if x.matchup_id = y.matchup_id then do
    let w ← accGet dirKeys st1.wins roster_id
    let st2 : RecState :=
      { st1 with wins := fupd st1.wins roster_id (w + winIndicator x y) }
    if (i : ℤ) ≥ recent_week_threshold ∧ recent_week_threshold ≥ 0 then do
      let rc ← accGet dirKeys st2.recent_wins roster_id
      .ok { st2 with recent_wins := fupd st2.recent_wins roster_id (rc + winIndicator x y) }
    else .ok st2
  else .ok st1

/-- One week of the record calculator: both nested roster loops, skipping the
pair of a roster with itself. -/
def recordWeek (dirKeys : List Nat) (thr : ℤ) (store : Store) (i : Nat)
    (st : RecState) : Except Err RecState :=
  efoldlM (fun st1 p =>
      efoldlM (fun st2 q =>
          if p.1 ≠ q.1 then recordPairStep dirKeys thr i p.1 p.2 q.2 st2 else .ok st2)
        st1 store)
    st store

/-- The tallying loops of
`calculate_wins_and_overall_wins_and_recent_wins_rankings`, over all
completed weeks, from all-zero tallies. -/
def recordAccum (cfg : Config) (dirKeys : List Nat) (store : Store) :
    Except Err RecState :=
  let thr : ℤ := (cfg.latest_finished_week : ℤ) - (cfg.recent_weeks_count : ℤ)
  efoldlM (fun st i => recordWeek dirKeys thr store i st)
    ⟨fun _ => 0, fun _ => 0, fun _ => 0⟩ (List.range cfg.latest_finished_week)

/-- The per-roster fields the record calculator writes into `FINAL_RESULTS`. -/
structure WinsFields where
  wins : ℚ
  wins_rankings : Nat
  overall_wins : ℚ
  overall_wins_rankings : Nat
  recent_wins : ℚ
  recent_wins_rankings : Nat
  deriving DecidableEq, Repr

/-- Everything `calculate_wins_and_overall_wins_and_recent_wins_rankings`
produces: the three returned rank dicts, the sorted raw dicts, and the
`FINAL_RESULTS` writes. -/
structure WinsOut where
  ranked_wins : List (Nat × Nat)
  ranked_overall_wins : List (Nat × Nat)
  ranked_recent_wins : List (Nat × Nat)
  sorted_wins : List (Nat × ℚ)
  sorted_overall_wins : List (Nat × ℚ)
  sorted_recent_wins : List (Nat × ℚ)
  per_roster : List (Nat × WinsFields)
  deriving DecidableEq, Repr

/-- `calculate_wins_and_overall_wins_and_recent_wins_rankings` from the
source: tally, sort by value, rank, then write per-roster results. -/
def calculate_wins_and_overall_wins_and_recent_wins_rankings
    (cfg : Config) (dirKeys : List Nat) (store : Store) : Except Err WinsOut := do
  let st ← recordAccum cfg dirKeys store
  let sorted_wins := sortByValue (dirKeys.map fun k => (k, st.wins k))
  let sorted_overall_wins := sortByValue (dirKeys.map fun k => (k, st.overall_wins k))
  let sorted_recent_wins := sortByValue (dirKeys.map fun k => (k, st.recent_wins k))
  let ranked_wins := rank_data_keyed_by_roster_id sorted_wins 0
  let ranked_overall_wins := rank_data_keyed_by_roster_id sorted_overall_wins 0
  let ranked_recent_wins := rank_data_keyed_by_roster_id sorted_recent_wins 0
  let per_roster ← emapM (fun r => do
      let w ← dlookupE sorted_wins r
      let wr ← dlookupE ranked_wins r
      let ow ← dlookupE sorted_overall_wins r
      let owr ← dlookupE ranked_overall_wins r
      let rw ← dlookupE sorted_recent_wins r
      let rwr ← dlookupE ranked_recent_wins r
      .ok (r, WinsFields.mk w wr ow owr rw rwr))
    dirKeys
  .ok ⟨ranked_wins, ranked_overall_wins, ranked_recent_wins,
       sorted_wins, sorted_overall_wins, sorted_recent_wins, per_roster⟩

/-- The per-roster fields the scoring calculator writes into `FINAL_RESULTS`. -/
structure ScoringFields where
  points_per_game : ℚ
  points_per_game_rankings : Nat
  consistency : ℚ
  consistency_rankings : Nat
  deriving DecidableEq, Repr

/-- Everything `calculate_points_per_game_and_consistency_rankings` produces. -/
structure ScoringOut where
  ranked_points_per_game : List (Nat × Nat)
  ranked_consistency : List (Nat × Nat)
  per_roster : List (Nat × ScoringFields)
  deriving DecidableEq, Repr

/-- `statistics.mean`; raises on an empty sequence. -/
def meanE (l : List ℚ) : Except Err ℚ :=
  if l.length = 0 then .error .statisticsError else .ok (l.sum / (l.length : ℚ))

/-- `statistics.stdev`; raises on fewer than two data points.  Its numeric
value (a square root) is abstracted as `stdevVal`. -/
def stdevE (stdevVal : List ℚ → ℚ) (l : List ℚ) : Except Err ℚ :=
  if l.length < 2 then .error .statisticsError else .ok (stdevVal l)

/-- Loop body filling `points_per_roster`: appends roster `p`'s week-`i`
points to its list; a store roster missing from the directory-initialised
dict raises `KeyError` first, then the week index is read. -/
def ppStep (dirKeys : List Nat) (i : Nat) (pp : Nat → List ℚ)
    (p : Nat × List PerRosterWeeklyData) : Except Err (Nat → List ℚ) :=
  if p.1 ∈ dirKeys then do
    let x ← listIdx p.2 i
    .ok fun k => if k = p.1 then pp p.1 ++ [x.points_scored] else pp k
  else .error .keyError

/-- The two nested loops building `points_per_roster` (weeks outer, store
entries inner), from empty lists on the directory keys. -/
def ppAccum (cfg : Config) (dirKeys : List Nat) (store : Store) :
    Except Err (Nat → List ℚ) :=
  efoldlM (fun pp i => efoldlM (fun pp2 p => ppStep dirKeys i pp2 p) pp store)
    (fun _ => []) (List.range cfg.latest_finished_week)

/-- `calculate_points_per_game_and_consistency_rankings` from the source:
collect per-roster points, take mean and (past the early-season threshold)
standard deviation, rank points-per-game descending, divide standard
deviation by the mean for consistency, rank that ascending, then write the
per-roster results. -/
def calculate_points_per_game_and_consistency_rankings
    (cfg : Config) (stdevVal : List ℚ → ℚ) (dirKeys : List Nat) (store : Store) :
    Except Err ScoringOut := do
  let pp ← ppAccum cfg dirKeys store
  let meansAndStdevs ← emapM (fun r => do
      let m ← meanE (pp r)
      let sd ← if cfg.consistency_early_season_week_threshold ≤ cfg.latest_finished_week
        then stdevE stdevVal (pp r) else .ok 0
      .ok (r, m, sd))
    dirKeys
  let points_per_game_per_roster := meansAndStdevs.map fun t => (t.1, t.2.1)
  let std_dev_per_game_per_roster := meansAndStdevs.map fun t => (t.1, t.2.2)
  let ranked_points_per_game := rank_data_keyed_by_roster_id points_per_game_per_roster 0
  let consistency_per_roster ← emapM (fun r => do
      let sd ← dlookupE std_dev_per_game_per_roster r
      let m ← dlookupE points_per_game_per_roster r
      if m = 0 then .error .zeroDivisionError else .ok (r, sd / m))
    dirKeys
  let ranked_consistency := rank_data_keyed_by_roster_id consistency_per_roster 1
  let per_roster ← emapM (fun r => do
      let m ← dlookupE points_per_game_per_roster r
      let mr ← dlookupE ranked_points_per_game r
      let c ← dlookupE consistency_per_roster r
      let cr ← dlookupE ranked_consistency r
      .ok (r, ScoringFields.mk m mr c cr))
    dirKeys
  .ok ⟨ranked_points_per_game, ranked_consistency, per_roster⟩

/-- `get_ros_rankings`: one integer of manual input per directory roster. -/
def get_ros_rankings (dirKeys : List Nat) (rosInput : Nat → ℤ) : List (Nat × ℤ) :=
  dirKeys.map fun r => (r, rosInput r)

/-- Python `round(q, 2)` modelled on rationals. -/
def round2 (q : ℚ) : ℚ := ((round (100 * q) : ℤ) : ℚ) / 100

/-- The per-roster composite score of `calculate_power_rankings_per_team`:
phase-selected win, recent-win and consistency weights in the numerator; the
denominator uses the early-season baseline win weight and omits the
recent-win and consistency weights, exactly as in the source. -/
def power_score (cfg : Config) (winR ovwR recR ppgR conR : Nat) (rosR : ℤ) : ℚ :=
  let win_weight_to_use :=
    if cfg.win_early_season_week_threshold ≤ cfg.latest_finished_week
    then cfg.win_weight else cfg.win_weight_early_season
  let recent_wins_to_use :=
    if cfg.recent_wins_early_season_week_threshold ≤ cfg.latest_finished_week
    then cfg.recent_wins_weight else cfg.recent_wins_weight_early_season
  let consistency_to_use :=
    if cfg.consistency_early_season_week_threshold ≤ cfg.latest_finished_week
    then cfg.consistency_weight else cfg.consistency_weight_early_season
  let num := (winR : ℚ) * win_weight_to_use + (ovwR : ℚ) * cfg.overall_win_weight
    + (recR : ℚ) * recent_wins_to_use + (ppgR : ℚ) * cfg.points_scored_weight
    + (conR : ℚ) * consistency_to_use + (rosR : ℚ) * cfg.roster_strength_weight
  let den := cfg.win_weight_early_season + cfg.overall_win_weight
    + cfg.points_scored_weight + cfg.roster_strength_weight
  round2 (num / den)

/-- The fields `calculate_power_rankings_per_team` writes into
`FINAL_RESULTS`. -/
structure PowerFields where
  power_rankings : ℚ
  power_rankings_rankings : Nat
  deriving DecidableEq, Repr

/-- `calculate_power_rankings_per_team` from the source: look up each
roster's six ranks, blend them into the composite score, rank the scores
ascending, then write the per-roster results. -/
def calculate_power_rankings_per_team (cfg : Config) (dirKeys : List Nat)
    (wins_rankings overall_wins_rankings recent_wins_rankings
      points_per_game_rankings consistency_rankings : List (Nat × Nat))
    (ros_rankings : List (Nat × ℤ)) : Except Err (List (Nat × PowerFields)) := do
  let power_rankings ← emapM (fun r => do
      let w ← dlookupE wins_rankings r
      let ow ← dlookupE overall_wins_rankings r
      let rw ← dlookupE recent_wins_rankings r
      let pg ← dlookupE points_per_game_rankings r
      let c ← dlookupE consistency_rankings r
      let ros ← dlookupE ros_rankings r
      .ok (r, power_score cfg w ow rw pg c ros))
    dirKeys
  let power_rankings_ranked := rank_data_keyed_by_roster_id power_rankings 1
  emapM (fun r => do
      let s ← dlookupE power_rankings r
      let pr ← dlookupE power_rankings_ranked r
      .ok (r, PowerFields.mk s pr))
    dirKeys

/-- One CSV row of `export_to_csv`, field for field. -/
structure Row where
  power_rank : Nat
  power_rank_value : ℚ
  member : String
  ppg : ℚ
  ppg_rank : Nat
  wins : ℚ
  win_rank : Nat
  overall_wins : ℚ
  overall_win_rank : Nat
  recent_wins : ℚ
  recent_wins_rank : Nat
  consistency_rating : ℚ
  consistency_rank : Nat
  ros_roster_rank : ℤ
  deriving DecidableEq, Repr

/-- `export_to_csv` from the source: one row per roster, iterating the roster
directory in its insertion order, reading that roster's `FINAL_RESULTS`
fields. -/
def export_to_csv (directory : List (Nat × String))
    (winsF : List (Nat × WinsFields)) (scoringF : List (Nat × ScoringFields))
    (rosF : List (Nat × ℤ)) (powerF : List (Nat × PowerFields)) :
    Except Err (List Row) :=
  emapM (fun p => do
      let pw ← dlookupE powerF p.1
      let sc ← dlookupE scoringF p.1
      let wf ← dlookupE winsF p.1
      let ros ← dlookupE rosF p.1
      .ok (Row.mk pw.power_rankings_rankings pw.power_rankings p.2
        sc.points_per_game sc.points_per_game_rankings
        wf.wins wf.wins_rankings wf.overall_wins wf.overall_wins_rankings
        wf.recent_wins wf.recent_wins_rankings
        sc.consistency sc.consistency_rankings ros))
    directory

/-- One matchup entry arriving: append to the roster's sequence, creating the
dict entry on first sight, as in `populate_per_roster_data`. -/
def upsertWeekly (store : Store) (e : MatchupEntry) : Store :=
  if (dlookup store e.roster_id).isSome then
    store.map fun p =>
      if p.1 = e.roster_id then (p.1, p.2 ++ [⟨e.points, e.matchup_id⟩]) else p
  else store ++ [(e.roster_id, [⟨e.points, e.matchup_id⟩])]

/-- `populate_per_roster_data` from the source: for each completed week in
order, append every arriving matchup entry.  No validation of any kind is
performed; the function is total. -/
def populate_per_roster_data (weeks : List (List MatchupEntry)) : Store :=
  weeks.foldl (fun store wk => wk.foldl upsertWeekly store) []

/-- `main` from the source (network fetches replaced by the `weeks` input,
interactive input by `rosInput`, the CSV file by the returned row list):
populate, scoring calculator, record calculator, manual rankings, composite
scores, export. -/
def runPipeline (cfg : Config) (stdevVal : List ℚ → ℚ)
    (directory : List (Nat × String)) (weeks : List (List MatchupEntry))
    (rosInput : Nat → ℤ) : Except Err (List Row) := do
  let store := populate_per_roster_data weeks
  let dirKeys := directory.map Prod.fst
  let scoringOut ← calculate_points_per_game_and_consistency_rankings cfg stdevVal dirKeys store
  let winsOut ← calculate_wins_and_overall_wins_and_recent_wins_rankings cfg dirKeys store
  let ros_rankings := get_ros_rankings dirKeys rosInput
  let powerF ← calculate_power_rankings_per_team cfg dirKeys
    winsOut.ranked_wins winsOut.ranked_overall_wins winsOut.ranked_recent_wins
    scoringOut.ranked_points_per_game scoringOut.ranked_consistency ros_rankings
  export_to_csv directory winsOut.per_roster scoringOut.per_roster ros_rankings powerF

/-- The spec's WeightSelector, written from its words: the early value when
the completed-week count is below the threshold, the normal value otherwise. -/
def weightSelectorSpec (completedWeeks threshold : Nat) (earlyValue normalValue : ℚ) : ℚ :=
  if completedWeeks < threshold then earlyValue else normalValue

/-- The composite-score formula claimed by the spec, written from its words
(numerator with the three phase-selected weights, denominator from the
early-season baseline win weight with the recent-win and consistency weights
omitted). -/
def compositeScoreSpec (cfg : Config) (winR ovwR recR ppgR conR : Nat) (rosR : ℤ) : ℚ :=
  let winW := weightSelectorSpec cfg.latest_finished_week
    cfg.win_early_season_week_threshold cfg.win_weight_early_season cfg.win_weight
  let recW := weightSelectorSpec cfg.latest_finished_week
    cfg.recent_wins_early_season_week_threshold cfg.recent_wins_weight_early_season cfg.recent_wins_weight
  let conW := weightSelectorSpec cfg.latest_finished_week
    cfg.consistency_early_season_week_threshold cfg.consistency_weight_early_season cfg.consistency_weight
  let num := (winR : ℚ) * winW + (ovwR : ℚ) * cfg.overall_win_weight
    + (recR : ℚ) * recW + (ppgR : ℚ) * cfg.points_scored_weight
    + (conR : ℚ) * conW + (rosR : ℚ) * cfg.roster_strength_weight
  let den := cfg.win_weight_early_season + cfg.overall_win_weight
    + cfg.points_scored_weight + cfg.roster_strength_weight
  round2 (num / den)

/-- Points the source reads as `roster_data[i].points_scored` (total version,
agreeing with the source wherever the index access succeeds). -/
def pointsAt (rd : List PerRosterWeeklyData) (i : Nat) : ℚ :=
  ((rd.get? i).getD default).points_scored

/-- Matchup id the source reads as `roster_data[i].matchup_id` (total
version). -/
def matchupAt (rd : List PerRosterWeeklyData) (i : Nat) : Nat :=
  ((rd.get? i).getD default).matchup_id

/-- Head-to-head wins the tallying loop credits roster `r` (data `rd`) for
week `i`: one per OTHER store roster sharing `r`'s matchup id that `r`
outscored — however many such rosters there are. -/
def winsWeekContrib (store : Store) (i : Nat) (r : Nat)
    (rd : List PerRosterWeeklyData) : ℚ :=
  (store.map fun q =>
    if q.1 ≠ r ∧ matchupAt rd i = matchupAt q.2 i ∧ pointsAt rd i > pointsAt q.2 i
    then (1 : ℚ) else 0).sum

/-- Closed form of the `wins` tally over all completed weeks. -/
def winsClosedForm (store : Store) (weekCount : Nat) (r : Nat)
    (rd : List PerRosterWeeklyData) : ℚ :=
  ((List.range weekCount).map fun i => winsWeekContrib store i r rd).sum

/-! General lemmas about the embedded runtime operations. -/

theorem except_bind_ok {α β : Type} {x : Except Err α} {f : α → Except Err β} {c : β}
    (h : (x >>= f) = .ok c) : ∃ b, x = .ok b ∧ f b = .ok c := by
  cases x with
  | error e => exact absurd h (by simp [Bind.bind, Except.bind])
  | ok b => exact ⟨b, rfl, h⟩

theorem except_bind_error {α β : Type} {x : Except Err α} {f : α → Except Err β} {e : Err}
    (h : (x >>= f) = .error e) : x = .error e ∨ ∃ b, x = .ok b ∧ f b = .error e := by
  cases x with
  | error e2 =>
      left
      have h3 : (Except.error e2 : Except Err β) = .error e := h
      have h2 : e2 = e := by injection h3
      rw [h2]
  | ok b => exact Or.inr ⟨b, rfl, h⟩

theorem error_bind {α β : Type} {f : α → Except Err β} {e : Err} {x : Except Err α}
    (h : x = .error e) : (x >>= f) = .error e := by
  subst h; rfl

theorem efoldlM_cons {σ α : Type} (f : σ → α → Except Err σ) (s : σ) (a : α) (l : List α) :
    efoldlM f s (a :: l) = f s a >>= fun s1 => efoldlM f s1 l := rfl

theorem emapM_cons {α β : Type} (f : α → Except Err β) (a : α) (l : List α) :
    emapM f (a :: l) = f a >>= fun b => (emapM f l >>= fun bs => .ok (b :: bs)) := rfl

theorem listIdx_ok {α : Type} {l : List α} {i : Nat} {x : α} :
    listIdx l i = .ok x ↔ l.get? i = some x := by
  unfold listIdx
  cases h : l.get? i <;> simp

theorem accGet_ok {dirKeys : List Nat} {f : Nat → ℚ} {k : Nat} {v : ℚ} :
    accGet dirKeys f k = .ok v ↔ k ∈ dirKeys ∧ v = f k := by
  unfold accGet
  by_cases h : k ∈ dirKeys <;> simp [h, eq_comm]

theorem dlookupE_ok {α : Type} {l : List (Nat × α)} {k : Nat} {v : α} :
    dlookupE l k = .ok v ↔ dlookup l k = some v := by
  unfold dlookupE
  cases h : dlookup l k <;> simp

theorem efoldlM_invariant {σ α : Type} {P : σ → Prop} {f : σ → α → Except Err σ} :
    ∀ {l : List α} {s s2 : σ},
      (∀ t a t2, a ∈ l → P t → f t a = .ok t2 → P t2) →
      efoldlM f s l = .ok s2 → P s → P s2 := by
  intro l
  induction l with
  | nil =>
      intro s s2 _ h hP
      cases h
      exact hP
  | cons a t ih =>
      intro s s2 hstep h hP
      rw [efoldlM_cons] at h
      obtain ⟨s1, h1, h2⟩ := except_bind_ok h
      exact ih (fun u b u2 hb => hstep u b u2 (List.mem_cons_of_mem _ hb)) h2
        (hstep s a s1 (List.mem_cons_self _ _) hP h1)

theorem efoldlM_ok_forall {σ α : Type} {f : σ → α → Except Err σ} :
    ∀ {l : List α} {s s2 : σ}, efoldlM f s l = .ok s2 →
      ∀ a ∈ l, ∃ t t2, f t a = .ok t2 := by
  intro l
  induction l with
  | nil => intro s s2 _ a ha; cases ha
  | cons b t ih =>
      intro s s2 h a ha
      rw [efoldlM_cons] at h
      obtain ⟨s1, h1, h2⟩ := except_bind_ok h
      rcases List.mem_cons.mp ha with rfl | ha2
      · exact ⟨s, s1, h1⟩
      · exact ih h2 a ha2

theorem efoldlM_error_kind {σ α : Type} {f : σ → α → Except Err σ} (P : Err → Prop)
    (hf : ∀ s a e, f s a = .error e → P e) :
    ∀ {l : List α} {s : σ} {e : Err}, efoldlM f s l = .error e → P e := by
  intro l
  induction l with
  | nil => intro s e h; cases h
  | cons a t ih =>
      intro s e h
      rw [efoldlM_cons] at h
      rcases except_bind_error h with h1 | ⟨s1, _, h2⟩
      · exact hf s a e h1
      · exact ih h2

theorem emapM_ok_mem {α β : Type} {f : α → Except Err β} :
    ∀ {l : List α} {res : List β}, emapM f l = .ok res →
      ∀ b ∈ res, ∃ a ∈ l, f a = .ok b := by
  intro l
  induction l with
  | nil =>
      intro res h b hb
      cases h
      cases hb
  | cons a t ih =>
      intro res h b hb
      rw [emapM_cons] at h
      obtain ⟨b1, h1, h2⟩ := except_bind_ok h
      obtain ⟨bs, h3, h4⟩ := except_bind_ok h2
      cases h4
      rcases List.mem_cons.mp hb with rfl | hb2
      · exact ⟨a, List.mem_cons_self _ _, h1⟩
      · obtain ⟨a2, ha2, hfa2⟩ := ih h3 b hb2
        exact ⟨a2, List.mem_cons_of_mem _ ha2, hfa2⟩

theorem emapM_ok_forall {α β : Type} {f : α → Except Err β} :
    ∀ {l : List α} {res : List β}, emapM f l = .ok res →
      ∀ a ∈ l, ∃ b ∈ res, f a = .ok b := by
  intro l
  induction l with
  | nil => intro res _ a ha; cases ha
  | cons a0 t ih =>
      intro res h a ha
      rw [emapM_cons] at h
      obtain ⟨b1, h1, h2⟩ := except_bind_ok h
      obtain ⟨bs, h3, h4⟩ := except_bind_ok h2
      cases h4
      rcases List.mem_cons.mp ha with rfl | ha2
      · exact ⟨b1, List.mem_cons_self _ _, h1⟩
      · obtain ⟨b2, hb2, hfb2⟩ := ih h3 a ha2
        exact ⟨b2, List.mem_cons_of_mem _ hb2, hfb2⟩

theorem emapM_error_mem {α β : Type} {f : α → Except Err β} :
    ∀ {l : List α} {e : Err}, emapM f l = .error e → ∃ a ∈ l, f a = .error e := by
  intro l
  induction l with
  | nil => intro e h; cases h
  | cons a t ih =>
      intro e h
      rw [emapM_cons] at h
      rcases except_bind_error h with h1 | ⟨b, _, h2⟩
      · exact ⟨a, List.mem_cons_self _ _, h1⟩
      · rcases except_bind_error h2 with h3 | ⟨bs, _, h4⟩
        · obtain ⟨a2, ha2, hfa2⟩ := ih h3
          exact ⟨a2, List.mem_cons_of_mem _ ha2, hfa2⟩
        · cases h4

theorem emapM_ok_map {α β γ : Type} {f : α → Except Err β} {g : β → γ} {h : α → γ}
    (hgh : ∀ a b, f a = .ok b → g b = h a) :
    ∀ {l : List α} {res : List β}, emapM f l = .ok res → res.map g = l.map h := by
  intro l
  induction l with
  | nil => intro res hres; cases hres; rfl
  | cons a t ih =>
      intro res hres
      rw [emapM_cons] at hres
      obtain ⟨b1, h1, h2⟩ := except_bind_ok hres
      obtain ⟨bs, h3, h4⟩ := except_bind_ok h2
      cases h4
      simp only [List.map_cons]
      rw [hgh a b1 h1, ih h3]

theorem dlookup_cons {α : Type} (p : Nat × α) (l : List (Nat × α)) (k : Nat) :
    dlookup (p :: l) k = if p.1 = k then some p.2 else dlookup l k := by
  by_cases h : p.1 = k
  · simp [dlookup, List.find?, h]
  · simp [dlookup, List.find?, beq_eq_false_iff_ne.mpr h, h]

theorem dlookup_mem {α : Type} {l : List (Nat × α)} {k : Nat} {v : α}
    (h : dlookup l k = some v) : (k, v) ∈ l := by
  induction l with
  | nil => cases h
  | cons p t ih =>
      rw [dlookup_cons] at h
      by_cases hp : p.1 = k
      · rw [if_pos hp] at h
        injection h with h2
        have hkv : (k, v) = p := by rw [← hp, ← h2]
        rw [hkv]
        exact List.mem_cons_self _ _
      · rw [if_neg hp] at h
        exact List.mem_cons_of_mem _ (ih h)

theorem dlookup_map_self {α : Type} (g : Nat → α) :
    ∀ (l : List Nat) (r : Nat), r ∈ l →
      dlookup (l.map fun k => (k, g k)) r = some (g r) := by
  intro l
  induction l with
  | nil => intro r hr; cases hr
  | cons a t ih =>
      intro r hr
      simp only [List.map_cons]
      rw [dlookup_cons]
      rcases List.mem_cons.mp hr with rfl | hr2
      · rw [if_pos rfl]
      · by_cases ha : a = r
        · rw [if_pos ha, ha]
        · rw [if_neg ha]
          exact ih r hr2

theorem dlookup_of_mem_nodup {α : Type} {l : List (Nat × α)} {p : Nat × α}
    (hnd : (l.map Prod.fst).Nodup) (hp : p ∈ l) : dlookup l p.1 = some p.2 := by
  induction l with
  | nil => cases hp
  | cons q t ih =>
      simp only [List.map_cons, List.nodup_cons] at hnd
      rw [dlookup_cons]
      rcases List.mem_cons.mp hp with rfl | hp2
      · rw [if_pos rfl]
      · have : q.1 ≠ p.1 := by
          intro hq
          exact hnd.1 (hq ▸ List.mem_map_of_mem Prod.fst hp2)
        rw [if_neg this]
        exact ih hnd.2 hp2

theorem dlookup_isSome_iff {α : Type} {l : List (Nat × α)} {k : Nat} :
    (dlookup l k).isSome ↔ k ∈ l.map Prod.fst := by
  induction l with
  | nil => simp [dlookup]
  | cons p t ih =>
      rw [dlookup_cons]
      by_cases h : p.1 = k
      · simp [h]
      · simp [h, ih, Ne.symm h]

theorem dlookup_all {α : Type} {l : List (Nat × α)} {P : α → Prop}
    (hall : ∀ p ∈ l, P p.2) {k : Nat} {v : α} (h : dlookup l k = some v) : P v :=
  hall (k, v) (dlookup_mem h)

theorem dlookup_perm {α : Type} {l1 l2 : List (Nat × α)} (hp : l1.Perm l2)
    (hnd : (l1.map Prod.fst).Nodup) : ∀ k, dlookup l1 k = dlookup l2 k := by
  induction hp with
  | nil => intro k; rfl
  | cons a h ih =>
      intro k
      rw [dlookup_cons, dlookup_cons]
      simp only [List.map_cons, List.nodup_cons] at hnd
      by_cases ha : a.1 = k
      · rw [if_pos ha, if_pos ha]
      · rw [if_neg ha, if_neg ha]
        exact ih hnd.2 k
  | swap a b t =>
      intro k
      simp only [List.map_cons, List.nodup_cons, List.mem_cons] at hnd
      rw [dlookup_cons, dlookup_cons, dlookup_cons, dlookup_cons]
      by_cases hb : b.1 = k
      · rw [if_pos hb]
        have : a.1 ≠ k := by
          intro ha
          exact hnd.1 (Or.inl (hb.trans ha.symm))
        rw [if_neg this, if_pos hb]
      · rw [if_neg hb]
        by_cases ha : a.1 = k
        · rw [if_pos ha, if_pos ha]
        · rw [if_neg ha, if_neg ha, if_neg hb]
  | trans h1 h2 ih1 ih2 =>
      intro k
      rw [ih1 hnd k]
      have hnd2 : _ := ((h1.map Prod.fst).nodup_iff).mp hnd
      exact ih2 hnd2 k

theorem insertSorted_perm (p : Nat × ℚ) : ∀ l : List (Nat × ℚ),
    (insertSorted p l).Perm (p :: l) := by
  intro l
  induction l with
  | nil => exact List.Perm.refl _
  | cons q t ih =>
      unfold insertSorted
      by_cases h : q.2 < p.2
      · rw [if_pos h]
        exact (List.Perm.cons q ih).trans (List.Perm.swap p q t)
      · rw [if_neg h]

theorem sortByValue_perm : ∀ l : List (Nat × ℚ), (sortByValue l).Perm l := by
  intro l
  induction l with
  | nil => exact List.Perm.refl _
  | cons p t ih =>
      have : sortByValue (p :: t) = insertSorted p (sortByValue t) := rfl
      rw [this]
      exact (insertSorted_perm p (sortByValue t)).trans (List.Perm.cons p ih)

theorem length_filter_lt_of_mem {α : Type} {p : α → Bool} :
    ∀ {l : List α} {a : α}, a ∈ l → p a = false → (l.filter p).length < l.length := by
  intro l
  induction l with
  | nil => intro a ha; cases ha
  | cons b t ih =>
      intro a ha hpa
      rcases List.mem_cons.mp ha with rfl | ha2
      · rw [List.filter_cons_of_neg (by simp [hpa])]
        exact Nat.lt_succ_of_le (List.length_filter_le p t)
      · by_cases hpb : p b = true
        · rw [List.filter_cons_of_pos hpb]
          exact Nat.succ_lt_succ (ih ha2 hpa)
        · rw [List.filter_cons_of_neg (by simp at hpb; simp [hpb])]
          exact Nat.lt_succ_of_lt (ih ha2 hpa)

/-! Lemmas about the rank helper. -/

theorem length_filter_map_comp {α β : Type} (f : α → β) (p : β → Bool) :
    ∀ l : List α, ((l.map f).filter p).length = (l.filter fun a => p (f a)).length := by
  intro l
  induction l with
  | nil => rfl
  | cons a t ih =>
      cases h : p (f a)
      · simp [List.filter_cons, h, ih]
      · simp [List.filter_cons, h, ih]

theorem assignedRank_eq_count (l : List (Nat × ℚ)) (s : Nat) (p : Nat × ℚ) :
    assignedRank l s p
      = 1 + (l.filter fun q => decide (adjustValue s q.2 < adjustValue s p.2)).length := by
  unfold assignedRank minRankQ
  rw [length_filter_map_comp]

theorem assignedRank_congr (l : List (Nat × ℚ)) (s : Nat) {p q : Nat × ℚ}
    (h : p.2 = q.2) : assignedRank l s p = assignedRank l s q := by
  unfold assignedRank
  rw [h]

theorem assignedRank_const {l : List (Nat × ℚ)} {c : ℚ} (hall : ∀ p ∈ l, p.2 = c)
    (s : Nat) {p : Nat × ℚ} (hp : p ∈ l) : assignedRank l s p = 1 := by
  rw [assignedRank_eq_count]
  have hnil : (l.filter fun q => decide (adjustValue s q.2 < adjustValue s p.2)) = [] := by
    rw [List.filter_eq_nil_iff]
    intro q hq
    rw [hall q hq, hall p hp]
    simp
  rw [hnil]
  rfl

theorem rank_data_const_rank {l : List (Nat × ℚ)} {c : ℚ} (hall : ∀ p ∈ l, p.2 = c)
    (s : Nat) : ∀ e ∈ rank_data_keyed_by_roster_id l s, e.2 = 1 := by
  intro e he
  obtain ⟨p, hp, rfl⟩ := List.mem_map.mp he
  exact assignedRank_const hall s hp

theorem rank_data_rank_bounds {l : List (Nat × ℚ)} {s : Nat} :
    ∀ e ∈ rank_data_keyed_by_roster_id l s, 1 ≤ e.2 ∧ e.2 ≤ l.length := by
  intro e he
  obtain ⟨p, hp, rfl⟩ := List.mem_map.mp he
  refine ⟨Nat.le_add_right 1 _, ?_⟩
  rw [assignedRank_eq_count]
  have := length_filter_lt_of_mem (p := fun q => decide (adjustValue s q.2 < adjustValue s p.2))
    hp (by simp)
  omega

theorem filter_lt_filter_lt {a b : Nat} (hab : a < b) :
    ∀ ids : List Nat,
      ((ids.filter fun w => decide (w < b)).filter fun w => decide (w < a))
        = ids.filter fun w => decide (w < a) := by
  intro ids
  induction ids with
  | nil => rfl
  | cons w t ih =>
      by_cases hwa : w < a
      · have hwb : w < b := lt_trans hwa hab
        rw [List.filter_cons_of_pos (by simpa using hwb),
          List.filter_cons_of_pos (by simpa using hwa),
          List.filter_cons_of_pos (by simpa using hwa), ih]
      · by_cases hwb : w < b
        · rw [List.filter_cons_of_pos (by simpa using hwb),
            List.filter_cons_of_neg (by simpa using hwa),
            List.filter_cons_of_neg (by simpa using hwa), ih]
        · rw [List.filter_cons_of_neg (by simpa using hwb),
            List.filter_cons_of_neg (by simpa using hwa), ih]

theorem minRankN_lt {ids : List Nat} {a b : Nat} (ha : a ∈ ids) (hab : a < b) :
    minRankN ids a < minRankN ids b := by
  unfold minRankN
  have h1 : a ∈ ids.filter fun w => decide (w < b) :=
    List.mem_filter.mpr ⟨ha, by simpa using hab⟩
  have h2 := length_filter_lt_of_mem (p := fun w => decide (w < a)) h1 (by simp)
  rw [filter_lt_filter_lt hab ids] at h2
  omega

theorem minRankN_inj {ids : List Nat} {a b : Nat} (ha : a ∈ ids) (hb : b ∈ ids)
    (h : minRankN ids a = minRankN ids b) : a = b := by
  rcases Nat.lt_trichotomy a b with hab | hab | hab
  · exact absurd h (Nat.ne_of_lt (minRankN_lt ha hab))
  · exact hab
  · exact absurd h.symm (Nat.ne_of_lt (minRankN_lt hb hab))

theorem minRankN_le_length {ids : List Nat} {a : Nat} (ha : a ∈ ids) :
    minRankN ids a ≤ ids.length := by
  unfold minRankN
  have := length_filter_lt_of_mem (p := fun w => decide (w < a)) ha (by simp)
  omega

theorem minRankN_surj {ids : List Nat} (hnd : ids.Nodup) {k : Nat}
    (h1 : 1 ≤ k) (h2 : k ≤ ids.length) : ∃ a ∈ ids, minRankN ids a = k := by
  have hmapnd : (ids.map fun a => minRankN ids a).Nodup :=
    List.Nodup.map_on (fun x hx y hy hxy => minRankN_inj hx hy hxy) hnd
  have hsub : (ids.map fun a => minRankN ids a).toFinset ⊆ Finset.Icc 1 ids.length := by
    intro x hx
    rw [List.mem_toFinset] at hx
    obtain ⟨a, ha, rfl⟩ := List.mem_map.mp hx
    exact Finset.mem_Icc.mpr ⟨Nat.le_add_right 1 _, minRankN_le_length ha⟩
  have hcard : (Finset.Icc 1 ids.length).card ≤ (ids.map fun a => minRankN ids a).toFinset.card := by
    rw [List.toFinset_card_of_nodup hmapnd, List.length_map, Nat.card_Icc]
    omega
  have heq := Finset.eq_of_subset_of_card_le hsub hcard
  have hk : k ∈ (ids.map fun a => minRankN ids a).toFinset := by
    rw [heq]
    exact Finset.mem_Icc.mpr ⟨h1, h2⟩
  rw [List.mem_toFinset] at hk
  obtain ⟨a, ha, hak⟩ := List.mem_map.mp hk
  exact ⟨a, ha, hak⟩

theorem rank_data_keys (l : List (Nat × ℚ)) (s : Nat) :
    (rank_data_keyed_by_roster_id l s).map Prod.fst
      = l.map fun p => minRankN (l.map Prod.fst) p.1 := by
  unfold rank_data_keyed_by_roster_id
  rw [List.map_map]
  rfl

theorem rank_data_isSome_iff {l : List (Nat × ℚ)} {s : Nat}
    (hnd : (l.map Prod.fst).Nodup) (k : Nat) :
    (dlookup (rank_data_keyed_by_roster_id l s) k).isSome ↔ 1 ≤ k ∧ k ≤ l.length := by
  rw [dlookup_isSome_iff, rank_data_keys]
  constructor
  · intro hk
    obtain ⟨p, hp, hpk⟩ := List.mem_map.mp hk
    refine ⟨hpk ▸ Nat.le_add_right 1 _, ?_⟩
    have := minRankN_le_length (List.mem_map_of_mem Prod.fst hp)
    rw [hpk] at this
    simpa [List.length_map] using this
  · rintro ⟨h1, h2⟩
    obtain ⟨a, ha, hak⟩ := minRankN_surj hnd h1 (by simpa [List.length_map] using h2)
    obtain ⟨p, hp, rfl⟩ := List.mem_map.mp ha
    exact List.mem_map.mpr ⟨p, hp, hak⟩

theorem minRankQ_perm {vs1 vs2 : List ℚ} (hp : vs1.Perm vs2) (v : ℚ) :
    minRankQ vs1 v = minRankQ vs2 v := by
  unfold minRankQ
  rw [(hp.filter _).length_eq]

theorem minRankN_perm {ids1 ids2 : List Nat} (hp : ids1.Perm ids2) (v : Nat) :
    minRankN ids1 v = minRankN ids2 v := by
  unfold minRankN
  rw [(hp.filter _).length_eq]

theorem assignedRank_perm {l1 l2 : List (Nat × ℚ)} (hp : l1.Perm l2) (s : Nat)
    (p : Nat × ℚ) : assignedRank l1 s p = assignedRank l2 s p := by
  unfold assignedRank
  exact minRankQ_perm (hp.map _) _

theorem rank_data_keys_nodup {l : List (Nat × ℚ)} (s : Nat)
    (hnd : (l.map Prod.fst).Nodup) :
    ((rank_data_keyed_by_roster_id l s).map Prod.fst).Nodup := by
  rw [rank_data_keys]
  have : (l.map fun p => minRankN (l.map Prod.fst) p.1)
      = (l.map Prod.fst).map fun a => minRankN (l.map Prod.fst) a := by
    rw [List.map_map]
    rfl
  rw [this]
  exact List.Nodup.map_on (fun x hx y hy hxy => minRankN_inj hx hy hxy) hnd

theorem rank_data_perm {l1 l2 : List (Nat × ℚ)} (hp : l1.Perm l2) (s : Nat)
    (hnd : (l1.map Prod.fst).Nodup) (k : Nat) :
    dlookup (rank_data_keyed_by_roster_id l1 s) k
      = dlookup (rank_data_keyed_by_roster_id l2 s) k := by
  have h2 : ∀ p : Nat × ℚ,
      (minRankN (l2.map Prod.fst) p.1, assignedRank l2 s p)
        = (minRankN (l1.map Prod.fst) p.1, assignedRank l1 s p) := by
    intro p
    rw [minRankN_perm (hp.map Prod.fst).symm, assignedRank_perm hp.symm]
  have hfun : rank_data_keyed_by_roster_id l2 s
      = l2.map fun p => (minRankN (l1.map Prod.fst) p.1, assignedRank l1 s p) := by
    unfold rank_data_keyed_by_roster_id
    exact congrArg (fun f => List.map f l2) (funext h2)
  have hperm : (rank_data_keyed_by_roster_id l1 s).Perm
      (rank_data_keyed_by_roster_id l2 s) := by
    rw [hfun]
    exact hp.map _
  exact dlookup_perm hperm (rank_data_keys_nodup s hnd) k

/-! Lemmas about the record calculator. -/

theorem recordPairStep_ok_inv {dirKeys : List Nat} {thr : ℤ} {i : Nat} {r : Nat}
    {rd od : List PerRosterWeeklyData} {st st2 : RecState}
    (h : recordPairStep dirKeys thr i r rd od st = .ok st2) :
    ∃ x y, rd.get? i = some x ∧ od.get? i = some y ∧ r ∈ dirKeys ∧
      st2.overall_wins = fupd st.overall_wins r (st.overall_wins r + winIndicator x y) ∧
      st2.wins = (if x.matchup_id = y.matchup_id
        then fupd st.wins r (st.wins r + winIndicator x y) else st.wins) ∧
      st2.recent_wins = (if x.matchup_id = y.matchup_id ∧ ((i : ℤ) ≥ thr ∧ thr ≥ 0)
        then fupd st.recent_wins r (st.recent_wins r + winIndicator x y)
        else st.recent_wins) := by
  unfold recordPairStep at h
  obtain ⟨ov, hov, h⟩ := except_bind_ok h
  obtain ⟨x, hx, h⟩ := except_bind_ok h
  obtain ⟨y, hy, h⟩ := except_bind_ok h
  obtain ⟨hmem, hov2⟩ := accGet_ok.mp hov
  subst hov2
  refine ⟨x, y, listIdx_ok.mp hx, listIdx_ok.mp hy, hmem, ?_⟩
  dsimp only at h
  by_cases hm : x.matchup_id = y.matchup_id
  · rw [if_pos hm] at h
    obtain ⟨w, hw, h⟩ := except_bind_ok h
    obtain ⟨_, hw2⟩ := accGet_ok.mp hw
    subst hw2
    by_cases hwin : (i : ℤ) ≥ thr ∧ thr ≥ 0
    · rw [if_pos hwin] at h
      obtain ⟨rc, hrc, h⟩ := except_bind_ok h
      obtain ⟨_, hrc2⟩ := accGet_ok.mp hrc
      subst hrc2
      have h2 := Except.ok.inj h
      rw [← h2]
      exact ⟨rfl, by rw [if_pos hm], by rw [if_pos ⟨hm, hwin⟩]⟩
    · rw [if_neg hwin] at h
      have h2 := Except.ok.inj h
      rw [← h2]
      refine ⟨rfl, by rw [if_pos hm], ?_⟩
      rw [if_neg (by rintro ⟨_, hc⟩; exact hwin hc)]
  · rw [if_neg hm] at h
    have h2 := Except.ok.inj h
    rw [← h2]
    refine ⟨rfl, by rw [if_neg hm], ?_⟩
    rw [if_neg (by rintro ⟨hc, _⟩; exact hm hc)]

theorem winIndicator_nonneg (x y : PerRosterWeeklyData) : 0 ≤ winIndicator x y := by
  unfold winIndicator
  split_ifs <;> norm_num

theorem recordPairStep_wins_le {dirKeys : List Nat} {thr : ℤ} {i : Nat} {r : Nat}
    {rd od : List PerRosterWeeklyData} {st st2 : RecState}
    (h : recordPairStep dirKeys thr i r rd od st = .ok st2)
    (hP : ∀ k, st.wins k ≤ st.overall_wins k) :
    ∀ k, st2.wins k ≤ st2.overall_wins k := by
  obtain ⟨x, y, _, _, _, hov, hw, _⟩ := recordPairStep_ok_inv h
  intro k
  have hind := winIndicator_nonneg x y
  rw [hov, hw]
  by_cases hm : x.matchup_id = y.matchup_id
  · rw [if_pos hm]
    unfold fupd
    by_cases hk : k = r
    · rw [if_pos hk, if_pos hk]
      exact add_le_add_right (hP r) _
    · rw [if_neg hk, if_neg hk]
      exact hP k
  · rw [if_neg hm]
    unfold fupd
    by_cases hk : k = r
    · rw [if_pos hk, hk]
      exact le_add_of_le_of_nonneg (hP r) hind
    · rw [if_neg hk]
      exact hP k

theorem recordPairStep_recent_zero {dirKeys : List Nat} {thr : ℤ} {i : Nat} {r : Nat}
    {rd od : List PerRosterWeeklyData} {st st2 : RecState} (hthr : thr < 0)
    (h : recordPairStep dirKeys thr i r rd od st = .ok st2)
    (hP : ∀ k, st.recent_wins k = 0) : ∀ k, st2.recent_wins k = 0 := by
  obtain ⟨x, y, _, _, _, _, _, hrc⟩ := recordPairStep_ok_inv h
  intro k
  rw [hrc, if_neg (by rintro ⟨_, _, hc⟩; omega)]
  exact hP k

theorem recordAccum_invariant {cfg : Config} {dirKeys : List Nat} {store : Store}
    {st : RecState} {P : RecState → Prop}
    (hstep : ∀ (i : Nat) (r : Nat) (rd od : List PerRosterWeeklyData) t t2,
      recordPairStep dirKeys ((cfg.latest_finished_week : ℤ) - (cfg.recent_weeks_count : ℤ))
        i r rd od t = .ok t2 → P t → P t2)
    (h : recordAccum cfg dirKeys store = .ok st)
    (hinit : P ⟨fun _ => 0, fun _ => 0, fun _ => 0⟩) : P st := by
  unfold recordAccum at h
  refine efoldlM_invariant ?_ h hinit
  intro t i t2 _ hP hw
  unfold recordWeek at hw
  refine efoldlM_invariant ?_ hw hP
  intro u p u2 _ hPu hinner
  refine efoldlM_invariant ?_ hinner hPu
  intro v q v2 _ hPv hs
  by_cases hpq : p.1 ≠ q.1
  · rw [if_pos hpq] at hs
    exact hstep i p.1 p.2 q.2 v v2 hs hPv
  · rw [if_neg hpq] at hs
    have h2 : v = v2 := by injection hs
    rw [← h2]
    exact hPv

theorem recordAccum_wins_le {cfg : Config} {dirKeys : List Nat} {store : Store}
    {st : RecState} (h : recordAccum cfg dirKeys store = .ok st) :
    ∀ k, st.wins k ≤ st.overall_wins k := by
  refine recordAccum_invariant (P := fun t => ∀ k, t.wins k ≤ t.overall_wins k)
    ?_ h (fun k => le_refl 0)
  intro i r rd od t t2 hs hP
  exact recordPairStep_wins_le hs hP

theorem recordAccum_recent_zero {cfg : Config} {dirKeys : List Nat} {store : Store}
    {st : RecState}
    (hthr : (cfg.latest_finished_week : ℤ) - (cfg.recent_weeks_count : ℤ) < 0)
    (h : recordAccum cfg dirKeys store = .ok st) : ∀ k, st.recent_wins k = 0 := by
  refine recordAccum_invariant (P := fun t => ∀ k, t.recent_wins k = 0)
    ?_ h (fun k => rfl)
  intro i r rd od t t2 hs hP
  exact recordPairStep_recent_zero hthr hs hP

theorem recordInner_ok_wins {dirKeys : List Nat} {thr : ℤ} {i : Nat}
    {p : Nat × List PerRosterWeeklyData} :
    ∀ {others : List (Nat × List PerRosterWeeklyData)} {st st2 : RecState},
      efoldlM (fun s q => if p.1 ≠ q.1 then recordPairStep dirKeys thr i p.1 p.2 q.2 s
        else .ok s) st others = .ok st2 →
      ∀ k, st2.wins k
        = if k = p.1 then st.wins k + winsWeekContrib others i p.1 p.2 else st.wins k := by
  intro others
  induction others with
  | nil =>
      intro st st2 h k
      cases h
      unfold winsWeekContrib
      by_cases hk : k = p.1 <;> simp [hk]
  | cons q t ih =>
      intro st st2 h k
      rw [efoldlM_cons] at h
      obtain ⟨s1, h1, h2⟩ := except_bind_ok h
      have hcontrib : winsWeekContrib (q :: t) i p.1 p.2
          = (if q.1 ≠ p.1 ∧ matchupAt p.2 i = matchupAt q.2 i
                ∧ pointsAt p.2 i > pointsAt q.2 i
              then (1 : ℚ) else 0) + winsWeekContrib t i p.1 p.2 := by
        unfold winsWeekContrib
        rw [List.map_cons, List.sum_cons]
      have ihk := ih h2
      by_cases hrq : p.1 ≠ q.1
      · rw [if_pos hrq] at h1
        obtain ⟨x, y, hx, hy, _, _, hw, _⟩ := recordPairStep_ok_inv h1
        have hx2 : p.2[i]? = some x := by rw [← List.get?_eq_getElem?]; exact hx
        have hy2 : q.2[i]? = some y := by rw [← List.get?_eq_getElem?]; exact hy
        have hma : matchupAt p.2 i = x.matchup_id := by simp [matchupAt, hx2]
        have hmb : matchupAt q.2 i = y.matchup_id := by simp [matchupAt, hy2]
        have hpa : pointsAt p.2 i = x.points_scored := by simp [pointsAt, hx2]
        have hpb : pointsAt q.2 i = y.points_scored := by simp [pointsAt, hy2]
        have hqp : q.1 ≠ p.1 := Ne.symm hrq
        have hs1 : ∀ k2, s1.wins k2 = if k2 = p.1
            then st.wins k2 + (if q.1 ≠ p.1 ∧ matchupAt p.2 i = matchupAt q.2 i
                ∧ pointsAt p.2 i > pointsAt q.2 i then (1 : ℚ) else 0)
            else st.wins k2 := by
          intro k2
          rw [hw]
          by_cases hm : x.matchup_id = y.matchup_id
          · rw [if_pos hm]
            unfold fupd
            by_cases hk2 : k2 = p.1
            · rw [if_pos hk2, if_pos hk2, hk2]
              simp [winIndicator, hqp, hma, hmb, hpa, hpb, hm]
            · rw [if_neg hk2, if_neg hk2]
          · rw [if_neg hm]
            by_cases hk2 : k2 = p.1
            · rw [if_pos hk2]
              have : ¬(q.1 ≠ p.1 ∧ matchupAt p.2 i = matchupAt q.2 i
                  ∧ pointsAt p.2 i > pointsAt q.2 i) := by
                rintro ⟨_, hc, _⟩
                rw [hma, hmb] at hc
                exact hm hc
              rw [if_neg this, hk2]
              simp
            · rw [if_neg hk2]
        rw [ihk k, hcontrib]
        by_cases hk : k = p.1
        · rw [if_pos hk, if_pos hk, hs1 k, if_pos hk, add_assoc]
        · rw [if_neg hk, if_neg hk, hs1 k, if_neg hk]
      · rw [if_neg hrq] at h1
        have h12 := Except.ok.inj h1
        have hp1 : p.1 = q.1 := not_not.mp (fun hc => hrq hc)
        have hzero : (if q.1 ≠ p.1 ∧ matchupAt p.2 i = matchupAt q.2 i
            ∧ pointsAt p.2 i > pointsAt q.2 i then (1 : ℚ) else 0) = 0 := by
          rw [if_neg]
          rintro ⟨hc, _⟩
          exact hc hp1.symm
        rw [ihk k, hcontrib, hzero, zero_add, ← h12]

theorem recordWeekEntries_ok_wins {dirKeys : List Nat} {thr : ℤ} {store : Store} {i : Nat} :
    ∀ {entries : List (Nat × List PerRosterWeeklyData)},
      (entries.map Prod.fst).Nodup →
      ∀ {st st2 : RecState},
        efoldlM (fun st1 p =>
            efoldlM (fun s q => if p.1 ≠ q.1 then recordPairStep dirKeys thr i p.1 p.2 q.2 s
              else .ok s) st1 store)
          st entries = .ok st2 →
        ∀ k, st2.wins k = st.wins k
          + ((dlookup entries k).elim 0 fun rd => winsWeekContrib store i k rd) := by
  intro entries
  induction entries with
  | nil =>
      intro _ st st2 h k
      cases h
      simp [dlookup, Option.elim]
  | cons p t ih =>
      intro hnd st st2 h k
      simp only [List.map_cons, List.nodup_cons] at hnd
      rw [efoldlM_cons] at h
      obtain ⟨s1, h1, h2⟩ := except_bind_ok h
      have hinner := recordInner_ok_wins h1
      have ihk := ih hnd.2 h2 k
      rw [dlookup_cons]
      by_cases hk : k = p.1
      · have hnone : dlookup t k = none := by
          have : k ∉ t.map Prod.fst := hk ▸ hnd.1
          have h3 := (not_congr dlookup_isSome_iff).mpr this
          exact Option.not_isSome_iff_eq_none.mp h3
        rw [if_pos hk.symm, ihk, hnone, hinner k, if_pos hk, hk]
        simp [Option.elim]
      · have hne : p.1 ≠ k := fun hc => hk hc.symm
        rw [if_neg hne, ihk, hinner k, if_neg hk]

theorem recordWeeks_ok_wins {dirKeys : List Nat} {thr : ℤ} {store : Store}
    (hnd : (store.map Prod.fst).Nodup) :
    ∀ {ws : List Nat} {st st2 : RecState},
      efoldlM (fun st i => recordWeek dirKeys thr store i st) st ws = .ok st2 →
      ∀ k, st2.wins k = st.wins k
        + ((ws.map fun i =>
            (dlookup store k).elim 0 fun rd => winsWeekContrib store i k rd).sum) := by
  intro ws
  induction ws with
  | nil =>
      intro st st2 h k
      cases h
      simp
  | cons i t ih =>
      intro st st2 h k
      rw [efoldlM_cons] at h
      obtain ⟨s1, h1, h2⟩ := except_bind_ok h
      unfold recordWeek at h1
      have hweek := recordWeekEntries_ok_wins hnd h1 k
      have ihk := ih h2 k
      rw [List.map_cons, List.sum_cons, ihk, hweek, add_assoc]

theorem recordAccum_ok_wins {cfg : Config} {dirKeys : List Nat} {store : Store}
    {st : RecState} (hnd : (store.map Prod.fst).Nodup)
    (h : recordAccum cfg dirKeys store = .ok st) :
    ∀ p ∈ store, st.wins p.1 = winsClosedForm store cfg.latest_finished_week p.1 p.2 := by
  unfold recordAccum at h
  intro p hp
  have hchar := recordWeeks_ok_wins hnd h p.1
  rw [hchar, dlookup_of_mem_nodup hnd hp]
  unfold winsClosedForm
  simp [Option.elim]

/-! Lemmas about the scoring calculator. -/

theorem listIdx_error {α : Type} {l : List α} {i : Nat} {e : Err}
    (h : listIdx l i = .error e) : e = .indexError := by
  unfold listIdx at h
  cases hg : l.get? i <;> rw [hg] at h
  · exact (Except.error.inj h).symm
  · cases h

theorem dlookupE_error {α : Type} {l : List (Nat × α)} {k : Nat} {e : Err}
    (h : dlookupE l k = .error e) : e = .keyError := by
  unfold dlookupE at h
  cases hg : dlookup l k <;> rw [hg] at h
  · exact (Except.error.inj h).symm
  · cases h

theorem meanE_error {l : List ℚ} {e : Err} (h : meanE l = .error e) :
    e = .statisticsError := by
  unfold meanE at h
  by_cases hl : l.length = 0
  · rw [if_pos hl] at h
    exact (Except.error.inj h).symm
  · rw [if_neg hl] at h
    cases h

theorem meanE_ok {l : List ℚ} {m : ℚ} (h : meanE l = .ok m) :
    l.length ≠ 0 ∧ m = l.sum / (l.length : ℚ) := by
  unfold meanE at h
  by_cases hl : l.length = 0
  · rw [if_pos hl] at h
    cases h
  · rw [if_neg hl] at h
    exact ⟨hl, (Except.ok.inj h).symm⟩

theorem stdevE_error {stdevVal : List ℚ → ℚ} {l : List ℚ} {e : Err}
    (h : stdevE stdevVal l = .error e) : e = .statisticsError := by
  unfold stdevE at h
  by_cases hl : l.length < 2
  · rw [if_pos hl] at h
    exact (Except.error.inj h).symm
  · rw [if_neg hl] at h
    cases h

theorem ppStep_ok_inv {dirKeys : List Nat} {i : Nat} {pp : Nat → List ℚ}
    {p : Nat × List PerRosterWeeklyData} {pp2 : Nat → List ℚ}
    (h : ppStep dirKeys i pp p = .ok pp2) :
    ∃ x, p.2.get? i = some x ∧ p.1 ∈ dirKeys ∧
      pp2 = fun k => if k = p.1 then pp p.1 ++ [x.points_scored] else pp k := by
  unfold ppStep at h
  by_cases hm : p.1 ∈ dirKeys
  · rw [if_pos hm] at h
    obtain ⟨x, hx, h⟩ := except_bind_ok h
    exact ⟨x, listIdx_ok.mp hx, hm, (Except.ok.inj h).symm⟩
  · rw [if_neg hm] at h
    cases h

theorem ppStep_error_kind {dirKeys : List Nat} {i : Nat} {pp : Nat → List ℚ}
    {p : Nat × List PerRosterWeeklyData} {e : Err}
    (h : ppStep dirKeys i pp p = .error e) : e = .keyError ∨ e = .indexError := by
  unfold ppStep at h
  by_cases hm : p.1 ∈ dirKeys
  · rw [if_pos hm] at h
    rcases except_bind_error h with h1 | ⟨x, _, h2⟩
    · exact Or.inr (listIdx_error h1)
    · cases h2
  · rw [if_neg hm] at h
    exact Or.inl (Except.error.inj h).symm

theorem ppAccum_error_kind {cfg : Config} {dirKeys : List Nat} {store : Store} {e : Err}
    (h : ppAccum cfg dirKeys store = .error e) : e = .keyError ∨ e = .indexError := by
  unfold ppAccum at h
  refine efoldlM_error_kind (P := fun e => e = .keyError ∨ e = .indexError) ?_ h
  intro pp i e2 h2
  refine efoldlM_error_kind (P := fun e => e = .keyError ∨ e = .indexError) ?_ h2
  intro pp2 p e3 h3
  exact ppStep_error_kind h3

theorem ppAccum_not_mem_nil {cfg : Config} {dirKeys : List Nat} {store : Store}
    {pp : Nat → List ℚ} (h : ppAccum cfg dirKeys store = .ok pp) :
    ∀ k, k ∉ store.map Prod.fst → pp k = [] := by
  unfold ppAccum at h
  refine efoldlM_invariant
    (P := fun pp : Nat → List ℚ => ∀ k, k ∉ store.map Prod.fst → pp k = [])
    ?_ h (fun k _ => rfl)
  intro t i t2 _ hP hw
  refine efoldlM_invariant
    (P := fun pp : Nat → List ℚ => ∀ k, k ∉ store.map Prod.fst → pp k = [])
    ?_ hw hP
  intro u p u2 hpmem hPu hstep
  obtain ⟨x, _, _, hdef⟩ := ppStep_ok_inv hstep
  intro k hk
  have hne : k ≠ p.1 := fun hc => hk (hc ▸ List.mem_map_of_mem Prod.fst hpmem)
  simp only [hdef]
  rw [if_neg hne]
  exact hPu k hk

theorem ppWeek_ok {dirKeys : List Nat} {i : Nat} :
    ∀ {entries : Store}, (entries.map Prod.fst).Nodup →
      ∀ {pp pp2 : Nat → List ℚ},
        efoldlM (fun pp2 p => ppStep dirKeys i pp2 p) pp entries = .ok pp2 →
        ∀ k, pp2 k = pp k ++ ((dlookup entries k).elim [] fun rd => [pointsAt rd i]) := by
  intro entries
  induction entries with
  | nil =>
      intro _ pp pp2 h k
      cases h
      simp [dlookup, Option.elim]
  | cons p t ih =>
      intro hnd pp pp2 h k
      simp only [List.map_cons, List.nodup_cons] at hnd
      rw [efoldlM_cons] at h
      obtain ⟨s1, h1, h2⟩ := except_bind_ok h
      obtain ⟨x, hx, _, hdef⟩ := ppStep_ok_inv h1
      have hx2 : p.2[i]? = some x := by rw [← List.get?_eq_getElem?]; exact hx
      have ihk := ih hnd.2 h2 k
      rw [dlookup_cons]
      by_cases hk : k = p.1
      · have hnone : dlookup t k = none := by
          have hmem : k ∉ t.map Prod.fst := hk ▸ hnd.1
          exact Option.not_isSome_iff_eq_none.mp ((not_congr dlookup_isSome_iff).mpr hmem)
        rw [if_pos hk.symm, ihk, hnone]
        simp only [hdef]
        rw [if_pos hk, hk]
        simp [Option.elim, pointsAt, hx2]
      · have hne : p.1 ≠ k := fun hc => hk hc.symm
        rw [if_neg hne, ihk]
        simp only [hdef]
        rw [if_neg hk]

theorem join_singletons {α : Type} (f : Nat → α) :
    ∀ ws : List Nat, (ws.map fun i => [f i]).flatten = ws.map f := by
  intro ws
  induction ws with
  | nil => rfl
  | cons i t ih => simp [ih]

theorem ppWeeks_ok {dirKeys : List Nat} {store : Store}
    (hnd : (store.map Prod.fst).Nodup) :
    ∀ {ws : List Nat} {pp0 pp2 : Nat → List ℚ},
      efoldlM (fun pp i => efoldlM (fun pp2 p => ppStep dirKeys i pp2 p) pp store)
        pp0 ws = .ok pp2 →
      ∀ k, pp2 k = pp0 k
        ++ (ws.map fun i => (dlookup store k).elim [] fun rd => [pointsAt rd i]).flatten := by
  intro ws
  induction ws with
  | nil =>
      intro pp0 pp2 h k
      cases h
      simp
  | cons i t ih =>
      intro pp0 pp2 h k
      rw [efoldlM_cons] at h
      obtain ⟨s1, h1, h2⟩ := except_bind_ok h
      have hweek := ppWeek_ok hnd h1 k
      have ihk := ih h2 k
      rw [ihk, hweek, List.map_cons, List.flatten_cons, List.append_assoc]

theorem ppAccum_ok_points {cfg : Config} {dirKeys : List Nat} {store : Store}
    {pp : Nat → List ℚ} (hnd : (store.map Prod.fst).Nodup)
    (h : ppAccum cfg dirKeys store = .ok pp) :
    ∀ p ∈ store, pp p.1
      = (List.range cfg.latest_finished_week).map fun i => pointsAt p.2 i := by
  unfold ppAccum at h
  intro p hp
  have hchar := ppWeeks_ok hnd h p.1
  rw [hchar, dlookup_of_mem_nodup hnd hp]
  simp only [Option.elim]
  rw [join_singletons]
  simp

theorem scoring_ok_inv {cfg : Config} {stdevVal : List ℚ → ℚ} {dirKeys : List Nat}
    {store : Store} {out : ScoringOut}
    (h : calculate_points_per_game_and_consistency_rankings cfg stdevVal dirKeys store
      = .ok out) :
    ∃ pp msd cons per_roster,
      ppAccum cfg dirKeys store = .ok pp
      ∧ emapM (fun r => do
            let m ← meanE (pp r)
            let sd ← if cfg.consistency_early_season_week_threshold ≤ cfg.latest_finished_week
              then stdevE stdevVal (pp r) else .ok 0
            .ok (r, m, sd)) dirKeys = .ok msd
      ∧ emapM (fun r => do
            let sd ← dlookupE (msd.map fun t => (t.1, t.2.2)) r
            let m ← dlookupE (msd.map fun t => (t.1, t.2.1)) r
            if m = 0 then .error .zeroDivisionError else .ok (r, sd / m)) dirKeys = .ok cons
      ∧ emapM (fun r => do
            let m ← dlookupE (msd.map fun t => (t.1, t.2.1)) r
            let mr ← dlookupE
              (rank_data_keyed_by_roster_id (msd.map fun t => (t.1, t.2.1)) 0) r
            let c ← dlookupE cons r
            let cr ← dlookupE (rank_data_keyed_by_roster_id cons 1) r
            .ok (r, ScoringFields.mk m mr c cr)) dirKeys = .ok per_roster
      ∧ out = ⟨rank_data_keyed_by_roster_id (msd.map fun t => (t.1, t.2.1)) 0,
          rank_data_keyed_by_roster_id cons 1, per_roster⟩ := by
  unfold calculate_points_per_game_and_consistency_rankings at h
  obtain ⟨pp, h1, h⟩ := except_bind_ok h
  obtain ⟨msd, h2, h⟩ := except_bind_ok h
  dsimp only at h
  obtain ⟨cons, h3, h⟩ := except_bind_ok h
  obtain ⟨per, h4, h⟩ := except_bind_ok h
  exact ⟨pp, msd, cons, per, h1, h2, h3, h4, (Except.ok.inj h).symm⟩

/-! Lemmas about the record-calculator wrapper. -/

theorem dlookup_sorted_self (g : Nat → ℚ) {dirKeys : List Nat} (hnd : dirKeys.Nodup)
    {r : Nat} (hr : r ∈ dirKeys) :
    dlookup (sortByValue (dirKeys.map fun k => (k, g k))) r = some (g r) := by
  have hkeys : ((dirKeys.map fun k => (k, g k)).map Prod.fst) = dirKeys := by
    rw [List.map_map]
    simp [Function.comp_def]
  have hnd1 : ((dirKeys.map fun k => (k, g k)).map Prod.fst).Nodup := by
    rw [hkeys]
    exact hnd
  have hnd2 : ((sortByValue (dirKeys.map fun k => (k, g k))).map Prod.fst).Nodup :=
    (List.Perm.nodup_iff ((sortByValue_perm _).map Prod.fst)).mpr hnd1
  rw [dlookup_perm (sortByValue_perm _) hnd2 r]
  exact dlookup_map_self g dirKeys r hr

theorem sorted_values_all {g : Nat → ℚ} {dirKeys : List Nat} {P : ℚ → Prop}
    (hall : ∀ k ∈ dirKeys, P (g k)) :
    ∀ p ∈ sortByValue (dirKeys.map fun k => (k, g k)), P p.2 := by
  intro p hp
  have hp2 := (sortByValue_perm _).mem_iff.mp hp
  obtain ⟨k, hk, hkp⟩ := List.mem_map.mp hp2
  rw [← hkp]
  exact hall k hk

theorem wins_ok_inv {cfg : Config} {dirKeys : List Nat} {store : Store} {out : WinsOut}
    (h : calculate_wins_and_overall_wins_and_recent_wins_rankings cfg dirKeys store
      = .ok out) :
    ∃ st per_roster,
      recordAccum cfg dirKeys store = .ok st
      ∧ emapM (fun r => do
          let w ← dlookupE (sortByValue (dirKeys.map fun k => (k, st.wins k))) r
          let wr ← dlookupE (rank_data_keyed_by_roster_id
            (sortByValue (dirKeys.map fun k => (k, st.wins k))) 0) r
          let ow ← dlookupE (sortByValue (dirKeys.map fun k => (k, st.overall_wins k))) r
          let owr ← dlookupE (rank_data_keyed_by_roster_id
            (sortByValue (dirKeys.map fun k => (k, st.overall_wins k))) 0) r
          let rcw ← dlookupE (sortByValue (dirKeys.map fun k => (k, st.recent_wins k))) r
          let rcwr ← dlookupE (rank_data_keyed_by_roster_id
            (sortByValue (dirKeys.map fun k => (k, st.recent_wins k))) 0) r
          .ok (r, WinsFields.mk w wr ow owr rcw rcwr)) dirKeys = .ok per_roster
      ∧ out = ⟨rank_data_keyed_by_roster_id
            (sortByValue (dirKeys.map fun k => (k, st.wins k))) 0,
          rank_data_keyed_by_roster_id
            (sortByValue (dirKeys.map fun k => (k, st.overall_wins k))) 0,
          rank_data_keyed_by_roster_id
            (sortByValue (dirKeys.map fun k => (k, st.recent_wins k))) 0,
          sortByValue (dirKeys.map fun k => (k, st.wins k)),
          sortByValue (dirKeys.map fun k => (k, st.overall_wins k)),
          sortByValue (dirKeys.map fun k => (k, st.recent_wins k)), per_roster⟩ := by
  unfold calculate_wins_and_overall_wins_and_recent_wins_rankings at h
  obtain ⟨st, h1, h⟩ := except_bind_ok h
  dsimp only at h
  obtain ⟨per, h2, h⟩ := except_bind_ok h
  exact ⟨st, per, h1, h2, (Except.ok.inj h).symm⟩

/-! The claims. -/

theorem select_comm (W t : Nat) (a b : ℚ) :
    (if t ≤ W then b else a) = if W < t then a else b := by
  rcases Nat.lt_or_ge W t with h | h
  · rw [if_neg (by omega), if_pos h]
  · rw [if_pos h, if_neg (by omega)]

/-- C1: for every configuration (hence for every roster's six rank inputs and
every completed-week count), the composite score computed by the power-rank
compositor equals round(N/D, 2) where N blends the six ranks with the
phase-selected win, recent-win and consistency weights (normal value at or
past the threshold, early value below it) and D is the early-season baseline
win weight plus the overall-win, points and roster-strength weights, with the
recent-win and consistency weights omitted. -/
theorem C1 (cfg : Config) (winR ovwR recR ppgR conR : Nat) (rosR : ℤ) :
    power_score cfg winR ovwR recR ppgR conR rosR
      = compositeScoreSpec cfg winR ovwR recR ppgR conR rosR := by
  unfold power_score compositeScoreSpec weightSelectorSpec
  simp only [select_comm]

/-- C3: whenever the record calculator succeeds on a store of uniform-length
per-roster sequences, every per-roster result it writes has its head-to-head
wins count at most its overall-wins count. -/
theorem C3 {cfg : Config} {dirKeys : List Nat} {store : Store} {out : WinsOut}
    (huni : ∀ p ∈ store, p.2.length = cfg.latest_finished_week)
    (hnd : dirKeys.Nodup)
    (h : calculate_wins_and_overall_wins_and_recent_wins_rankings cfg dirKeys store
      = .ok out) :
    ∀ p ∈ out.per_roster, p.2.wins ≤ p.2.overall_wins := by
  obtain ⟨st, per, hst, hper, hout⟩ := wins_ok_inv h
  have hle := recordAccum_wins_le hst
  intro p hp
  have hp2 : p ∈ per := by rw [hout] at hp; exact hp
  obtain ⟨r, hr, hf⟩ := emapM_ok_mem hper p hp2
  obtain ⟨w, hw, hf⟩ := except_bind_ok hf
  obtain ⟨wr, hwr, hf⟩ := except_bind_ok hf
  obtain ⟨ow, how, hf⟩ := except_bind_ok hf
  obtain ⟨owr, howr, hf⟩ := except_bind_ok hf
  obtain ⟨rcw, hrcw, hf⟩ := except_bind_ok hf
  obtain ⟨rcwr, hrcwr, hf⟩ := except_bind_ok hf
  have hpair := Except.ok.inj hf
  have hwv : w = st.wins r := by
    have h2 := dlookupE_ok.mp hw
    rw [dlookup_sorted_self (fun k => st.wins k) hnd hr] at h2
    exact (Option.some.inj h2).symm
  have howv : ow = st.overall_wins r := by
    have h2 := dlookupE_ok.mp how
    rw [dlookup_sorted_self (fun k => st.overall_wins k) hnd hr] at h2
    exact (Option.some.inj h2).symm
  rw [← hpair]
  dsimp only
  rw [hwv, howv]
  exact hle r

/-- C3 witness: a concrete two-roster, one-week run on which the record
calculator succeeds and every written result has wins at most overall wins. -/
theorem C3_witness :
    (calculate_wins_and_overall_wins_and_recent_wins_rankings (defaultConfig 1) [1, 2]
        [(1, [⟨100, 1⟩]), (2, [⟨90, 1⟩])]).map
      (fun o => o.per_roster.all fun p => decide (p.2.wins ≤ p.2.overall_wins)) = .ok true := by
  rcases hout : calculate_wins_and_overall_wins_and_recent_wins_rankings (defaultConfig 1)
      [1, 2] [(1, [⟨100, 1⟩]), (2, [⟨90, 1⟩])] with e | out
  · have h2 : (calculate_wins_and_overall_wins_and_recent_wins_rankings (defaultConfig 1)
        [1, 2] [(1, [⟨100, 1⟩]), (2, [⟨90, 1⟩])]).map
        (fun o => o.per_roster.all fun p => decide (p.2.wins ≤ p.2.overall_wins))
        = .ok true := by with_unfolding_all decide
    rw [hout] at h2
    exact absurd h2 (by simp [Except.map])
  · simp only [Except.map]
    have := C3 (by decide) (by decide) hout
    refine congrArg Except.ok ?_
    rw [List.all_eq_true]
    intro p hp
    exact decide_eq_true (this p hp)

/-- C5: whenever the completed-week count minus the recent-weeks window size
is negative and the record calculator succeeds, every per-roster result has
zero recent wins and recent-wins rank 1, and every entry of the recent-wins
rank map is 1 (the universal tie). -/
theorem C5 {cfg : Config} {dirKeys : List Nat} {store : Store} {out : WinsOut}
    (hWR : (cfg.latest_finished_week : ℤ) - (cfg.recent_weeks_count : ℤ) < 0)
    (h : calculate_wins_and_overall_wins_and_recent_wins_rankings cfg dirKeys store
      = .ok out) :
    (∀ p ∈ out.per_roster, p.2.recent_wins = 0 ∧ p.2.recent_wins_rankings = 1)
    ∧ ∀ e ∈ out.ranked_recent_wins, e.2 = 1 := by
  obtain ⟨st, per, hst, hper, hout⟩ := wins_ok_inv h
  have hzero := recordAccum_recent_zero hWR hst
  have hall : ∀ p ∈ sortByValue (dirKeys.map fun k => (k, st.recent_wins k)),
      p.2 = (0 : ℚ) :=
    sorted_values_all (g := fun k => st.recent_wins k) (P := fun v => v = 0)
      (fun k _ => hzero k)
  have hrank1 := rank_data_const_rank hall 0
  constructor
  · intro p hp
    have hp2 : p ∈ per := by rw [hout] at hp; exact hp
    obtain ⟨r, hr, hf⟩ := emapM_ok_mem hper p hp2
    obtain ⟨w, hw, hf⟩ := except_bind_ok hf
    obtain ⟨wr, hwr, hf⟩ := except_bind_ok hf
    obtain ⟨ow, how, hf⟩ := except_bind_ok hf
    obtain ⟨owr, howr, hf⟩ := except_bind_ok hf
    obtain ⟨rcw, hrcw, hf⟩ := except_bind_ok hf
    obtain ⟨rcwr, hrcwr, hf⟩ := except_bind_ok hf
    have hpair := Except.ok.inj hf
    have hrcwv : rcw = 0 :=
      dlookup_all (P := fun v => v = 0) hall (dlookupE_ok.mp hrcw)
    have hrcwrv : rcwr = 1 :=
      dlookup_all (P := fun v => v = 1) hrank1 (dlookupE_ok.mp hrcwr)
    rw [← hpair]
    exact ⟨hrcwv, hrcwrv⟩
  · intro e he
    have he2 : e ∈ rank_data_keyed_by_roster_id
        (sortByValue (dirKeys.map fun k => (k, st.recent_wins k))) 0 := by
      rw [hout] at he
      exact he
    exact hrank1 e he2

/-- C5 witness: a concrete one-week run (window size 5), recent wins all zero
and all recent-wins ranks 1. -/
theorem C5_witness :
    (calculate_wins_and_overall_wins_and_recent_wins_rankings (defaultConfig 1) [1, 2]
        [(1, [⟨80, 1⟩]), (2, [⟨95, 1⟩])]).map
      (fun o => (o.per_roster.all fun p =>
          decide (p.2.recent_wins = 0) && decide (p.2.recent_wins_rankings = 1))
        && (o.ranked_recent_wins.all fun e => decide (e.2 = 1))) = .ok true := by
  rcases hout : calculate_wins_and_overall_wins_and_recent_wins_rankings (defaultConfig 1)
      [1, 2] [(1, [⟨80, 1⟩]), (2, [⟨95, 1⟩])] with e | out
  · have h2 : (calculate_wins_and_overall_wins_and_recent_wins_rankings (defaultConfig 1)
        [1, 2] [(1, [⟨80, 1⟩]), (2, [⟨95, 1⟩])]).map
        (fun o => (o.per_roster.all fun p =>
            decide (p.2.recent_wins = 0) && decide (p.2.recent_wins_rankings = 1))
          && (o.ranked_recent_wins.all fun e => decide (e.2 = 1))) = .ok true := by
        with_unfolding_all decide
    rw [hout] at h2
    exact absurd h2 (by simp [Except.map])
  · simp only [Except.map]
    have h5 := C5 (by decide) hout
    refine congrArg Except.ok ?_
    rw [Bool.and_eq_true, List.all_eq_true, List.all_eq_true]
    refine ⟨fun p hp => ?_, fun e he => decide_eq_true (h5.2 e he)⟩
    rw [Bool.and_eq_true]
    exact ⟨decide_eq_true (h5.1 p hp).1, decide_eq_true (h5.1 p hp).2⟩

/-- C6 counterexample: populating the store on an input in which roster 2 is
missing its week-2 observation does not fail at all — it totally produces a
store with ragged sequence lengths 2 and 1 (the claim asserts population
fails with a data-gap failure on such input). -/
theorem C6_cex :
    populate_per_roster_data [[⟨1, 10, 1⟩, ⟨2, 5, 1⟩], [⟨1, 20, 1⟩]]
        = [(1, [⟨10, 1⟩, ⟨20, 1⟩]), (2, [⟨5, 1⟩])]
      ∧ (populate_per_roster_data [[⟨1, 10, 1⟩, ⟨2, 5, 1⟩], [⟨1, 20, 1⟩]]).map
          (fun p => p.2.length) = [2, 1] := by
  exact ⟨rfl, rfl⟩

/-- C6 amended: population itself performs no gap check and always succeeds;
whenever some roster's populated sequence is shorter than the completed-week
count, the run still aborts with no report emitted, because the downstream
scoring calculator's per-week indexing fails on the ragged store. -/
theorem C6_amended (cfg : Config) (stdevVal : List ℚ → ℚ)
    (directory : List (Nat × String)) (weeks : List (List MatchupEntry))
    (rosInput : Nat → ℤ)
    (hgap : ∃ p ∈ populate_per_roster_data weeks,
      p.2.length < cfg.latest_finished_week) :
    ∀ rows, runPipeline cfg stdevVal directory weeks rosInput ≠ .ok rows := by
  intro rows hok
  unfold runPipeline at hok
  dsimp only at hok
  obtain ⟨so, h1, _⟩ := except_bind_ok hok
  obtain ⟨pp, msd, cons, per, hpp, _, _, _, _⟩ := scoring_ok_inv h1
  obtain ⟨p, hp, hlen⟩ := hgap
  unfold ppAccum at hpp
  obtain ⟨t, t2, ht⟩ := efoldlM_ok_forall hpp p.2.length (List.mem_range.mpr hlen)
  obtain ⟨u, u2, hu⟩ := efoldlM_ok_forall ht p hp
  obtain ⟨x, hx, _, _⟩ := ppStep_ok_inv hu
  have hnone : p.2.get? p.2.length = none := List.get?_eq_none.mpr (le_refl _)
  rw [hnone] at hx
  cases hx

/-- C6 amended witness: the concrete ragged run from the counterexample
indeed never returns a row list. -/
theorem C6_amended_witness :
    runPipeline (defaultConfig 2) (fun _ => 0) [(1, "A"), (2, "B")]
        [[⟨1, 10, 1⟩, ⟨2, 5, 1⟩], [⟨1, 20, 1⟩]] (fun _ => 1) ≠ .ok [] :=
  C6_amended _ _ _ _ _ (by with_unfolding_all decide) []

/-- C7 counterexample: with three rosters all sharing matchup grouping id 1
in the single completed week, the record calculator reports no failure at all
and silently credits roster 1 with two head-to-head wins for that one week
(one against each sharing roster it outscored). -/
theorem C7_cex :
    (calculate_wins_and_overall_wins_and_recent_wins_rankings (defaultConfig 1) [1, 2, 3]
        [(1, [⟨30, 1⟩]), (2, [⟨20, 1⟩]), (3, [⟨10, 1⟩])]).map
      (fun o => (dlookup o.per_roster 1).map fun f => f.wins) = .ok (some 2) := by
  with_unfolding_all decide

/-- C7 amended: the record calculation performs no opponent-ambiguity
detection; whenever it succeeds, each store roster's wins tally equals the
closed form that counts, for every week, one win per OTHER store roster
sharing its matchup grouping id that it outscored — however many rosters
share that id. -/
theorem C7_amended {cfg : Config} {dirKeys : List Nat} {store : Store} {st : RecState}
    (hnd : (store.map Prod.fst).Nodup)
    (h : recordAccum cfg dirKeys store = .ok st) :
    ∀ p ∈ store, st.wins p.1 = winsClosedForm store cfg.latest_finished_week p.1 p.2 :=
  recordAccum_ok_wins hnd h

/-- C7 amended witness: on a concrete three-roster shared-matchup week the
tally equals the closed form (value 2 for roster 1). -/
theorem C7_amended_witness :
    (recordAccum (defaultConfig 1) [1, 2, 3]
        [(1, [⟨30, 5⟩]), (2, [⟨20, 5⟩]), (3, [⟨10, 5⟩])]).map (fun st => st.wins 1)
      = .ok (winsClosedForm [(1, [⟨30, 5⟩]), (2, [⟨20, 5⟩]), (3, [⟨10, 5⟩])] 1 1
          [⟨30, 5⟩]) := by
  rcases hst : recordAccum (defaultConfig 1) [1, 2, 3]
      [(1, [⟨30, 5⟩]), (2, [⟨20, 5⟩]), (3, [⟨10, 5⟩])] with e | st
  · have h2 : (recordAccum (defaultConfig 1) [1, 2, 3]
        [(1, [⟨30, 5⟩]), (2, [⟨20, 5⟩]), (3, [⟨10, 5⟩])]).map (fun st => st.wins 1)
        = .ok 2 := by with_unfolding_all decide
    rw [hst] at h2
    exact absurd h2 (by simp [Except.map])
  · simp only [Except.map]
    exact congrArg Except.ok
      (C7_amended (by with_unfolding_all decide) hst (1, [⟨30, 5⟩])
        (by with_unfolding_all decide))

/-- C4: whenever the completed-week count is below the consistency
early-season threshold and the scoring calculator succeeds, every per-roster
result has consistency exactly 0 (standard deviation treated as 0) and
consistency rank 1, and every entry of the consistency rank map is 1 (the
universal tie).  Successful production embodies the claim's nonzero
points-per-game precondition: a zero mean would abort with a division error
and produce nothing. -/
theorem C4 {cfg : Config} {stdevVal : List ℚ → ℚ} {dirKeys : List Nat} {store : Store}
    {out : ScoringOut}
    (hW : cfg.latest_finished_week < cfg.consistency_early_season_week_threshold)
    (h : calculate_points_per_game_and_consistency_rankings cfg stdevVal dirKeys store
      = .ok out) :
    (∀ p ∈ out.per_roster, p.2.consistency = 0 ∧ p.2.consistency_rankings = 1)
    ∧ ∀ e ∈ out.ranked_consistency, e.2 = 1 := by
  obtain ⟨pp, msd, cons, per, h1, h2, h3, h4, hout⟩ := scoring_ok_inv h
  have hsd : ∀ t ∈ msd, t.2.2 = (0 : ℚ) := by
    intro t ht
    obtain ⟨r, hr, hf⟩ := emapM_ok_mem h2 t ht
    obtain ⟨m, hm, hf⟩ := except_bind_ok hf
    dsimp only at hf
    rw [if_neg (Nat.not_le.mpr hW)] at hf
    have ht2 : ((r, m, (0 : ℚ)) : Nat × ℚ × ℚ) = t := Except.ok.inj hf
    rw [← ht2]
  have hstdall : ∀ p ∈ (msd.map fun t => (t.1, t.2.2)), p.2 = (0 : ℚ) := by
    intro p hp
    obtain ⟨t, ht, hpt⟩ := List.mem_map.mp hp
    rw [← hpt]
    exact hsd t ht
  have hcons : ∀ p ∈ cons, p.2 = (0 : ℚ) := by
    intro p hp
    obtain ⟨r, hr, hf⟩ := emapM_ok_mem h3 p hp
    obtain ⟨sd, hsdl, hf⟩ := except_bind_ok hf
    obtain ⟨m, hml, hf⟩ := except_bind_ok hf
    have hsdv : sd = 0 :=
      dlookup_all (P := fun v => v = 0) hstdall (dlookupE_ok.mp hsdl)
    by_cases hm0 : m = 0
    · rw [if_pos hm0] at hf
      cases hf
    · rw [if_neg hm0] at hf
      have hpv := Except.ok.inj hf
      rw [← hpv]
      dsimp only
      rw [hsdv, zero_div]
  have hrank1 := rank_data_const_rank hcons 1
  constructor
  · intro p hp
    have hp2 : p ∈ per := by rw [hout] at hp; exact hp
    obtain ⟨r, hr, hf⟩ := emapM_ok_mem h4 p hp2
    obtain ⟨m, hm, hf⟩ := except_bind_ok hf
    obtain ⟨mr, hmr, hf⟩ := except_bind_ok hf
    obtain ⟨c, hc, hf⟩ := except_bind_ok hf
    obtain ⟨cr, hcr, hf⟩ := except_bind_ok hf
    have hpair := Except.ok.inj hf
    have hcv : c = 0 := dlookup_all (P := fun v => v = 0) hcons (dlookupE_ok.mp hc)
    have hcrv : cr = 1 := dlookup_all (P := fun v => v = 1) hrank1 (dlookupE_ok.mp hcr)
    rw [← hpair]
    exact ⟨hcv, hcrv⟩
  · intro e he
    have he2 : e ∈ rank_data_keyed_by_roster_id cons 1 := by rw [hout] at he; exact he
    exact hrank1 e he2

/-- C4 witness: a concrete one-week run (threshold 3), consistency 0 and
consistency ranks all 1. -/
theorem C4_witness :
    (calculate_points_per_game_and_consistency_rankings (defaultConfig 1) (fun _ => 0)
        [1, 2] [(1, [⟨60, 1⟩]), (2, [⟨45, 1⟩])]).map
      (fun o => (o.per_roster.all fun p =>
          decide (p.2.consistency = 0) && decide (p.2.consistency_rankings = 1))
        && (o.ranked_consistency.all fun e => decide (e.2 = 1))) = .ok true := by
  rcases hout : calculate_points_per_game_and_consistency_rankings (defaultConfig 1)
      (fun _ => 0) [1, 2] [(1, [⟨60, 1⟩]), (2, [⟨45, 1⟩])] with e | out
  · have h2 : (calculate_points_per_game_and_consistency_rankings (defaultConfig 1)
        (fun _ => 0) [1, 2] [(1, [⟨60, 1⟩]), (2, [⟨45, 1⟩])]).map
        (fun o => (o.per_roster.all fun p =>
            decide (p.2.consistency = 0) && decide (p.2.consistency_rankings = 1))
          && (o.ranked_consistency.all fun e => decide (e.2 = 1))) = .ok true := by
      with_unfolding_all decide
    rw [hout] at h2
    exact absurd h2 (by simp [Except.map])
  · simp only [Except.map]
    have h4 := C4 (by decide) hout
    refine congrArg Except.ok ?_
    rw [Bool.and_eq_true, List.all_eq_true, List.all_eq_true]
    refine ⟨fun p hp => ?_, fun e he => decide_eq_true (h4.2 e he)⟩
    rw [Bool.and_eq_true]
    exact ⟨decide_eq_true (h4.1 p hp).1, decide_eq_true (h4.1 p hp).2⟩

/-- C8: under the precondition that every store roster's summed weekly points
(hence its points-per-game) is nonzero, the scoring calculator never reaches
the guarded division's error branch; and the division is unguarded for
violating inputs — on a concrete roster averaging exactly zero the calculator
fails with the division-by-zero error. -/
theorem C8 :
    (∀ (cfg : Config) (stdevVal : List ℚ → ℚ) (dirKeys : List Nat) (store : Store),
        (store.map Prod.fst).Nodup →
        (∀ p ∈ store,
          ((List.range cfg.latest_finished_week).map fun i => pointsAt p.2 i).sum ≠ 0) →
        calculate_points_per_game_and_consistency_rankings cfg stdevVal dirKeys store
          ≠ .error .zeroDivisionError)
    ∧ calculate_points_per_game_and_consistency_rankings (defaultConfig 1) (fun _ => 0)
        [1, 2] [(1, [⟨0, 1⟩]), (2, [⟨10, 1⟩])] = .error .zeroDivisionError := by
  constructor
  · intro cfg stdevVal dirKeys store hnd hppg hcontra
    unfold calculate_points_per_game_and_consistency_rankings at hcontra
    rcases except_bind_error hcontra with h1 | ⟨pp, h1, hcontra⟩
    · rcases ppAccum_error_kind h1 with hk | hk <;> cases hk
    rcases except_bind_error hcontra with h2 | ⟨msd, h2, hcontra⟩
    · obtain ⟨r, hr, hf⟩ := emapM_error_mem h2
      rcases except_bind_error hf with hm | ⟨m, hm, hf⟩
      · cases meanE_error hm
      dsimp only at hf
      by_cases hc : cfg.consistency_early_season_week_threshold
          ≤ cfg.latest_finished_week
      · rw [if_pos hc] at hf
        rcases except_bind_error hf with hsd | ⟨sd, _, hjp⟩
        · cases stdevE_error hsd
        · cases hjp
      · rw [if_neg hc] at hf
        have hcon : (Except.ok ((r, m, (0 : ℚ)) : Nat × ℚ × ℚ))
            = Except.error Err.zeroDivisionError := hf
        cases hcon
    dsimp only at hcontra
    rcases except_bind_error hcontra with h3 | ⟨cons, h3, hcontra⟩
    · obtain ⟨r, hr, hf⟩ := emapM_error_mem h3
      rcases except_bind_error hf with hsd | ⟨sd, hsd, hf⟩
      · cases dlookupE_error hsd
      rcases except_bind_error hf with hm | ⟨m, hm, hf⟩
      · cases dlookupE_error hm
      by_cases hm0 : m = 0
      case neg =>
        rw [if_neg hm0] at hf
        cases hf
      rw [if_pos hm0] at hf
      have hmem := dlookup_mem (dlookupE_ok.mp hm)
      obtain ⟨t, ht, hteq⟩ := List.mem_map.mp hmem
      obtain ⟨a, ha, hfa⟩ := emapM_ok_mem h2 t ht
      obtain ⟨m2, hm2, hfa⟩ := except_bind_ok hfa
      have hm2t : t.2.1 = m2 := by
        dsimp only at hfa
        by_cases hc : cfg.consistency_early_season_week_threshold
            ≤ cfg.latest_finished_week
        · rw [if_pos hc] at hfa
          obtain ⟨sd2, _, hjp⟩ := except_bind_ok hfa
          have hj := Except.ok.inj hjp
          rw [← hj]
        · rw [if_neg hc] at hfa
          have h7 : ((a, m2, (0 : ℚ)) : Nat × ℚ × ℚ) = t := Except.ok.inj hfa
          rw [← h7]
      obtain ⟨hlen, hmean⟩ := meanE_ok hm2
      have hane : pp a ≠ [] := fun hc => hlen (by rw [hc]; rfl)
      have hamem : a ∈ store.map Prod.fst := by
        by_contra hax
        exact hane (ppAccum_not_mem_nil h1 a hax)
      obtain ⟨p, hp, hpa⟩ := List.mem_map.mp hamem
      have hppa := ppAccum_ok_points hnd h1 p hp
      have hm2v : m2 = 0 := by
        have h5 : t.2.1 = m := congrArg Prod.snd hteq
        rw [← hm2t, h5, hm0]
      have hsum : (pp a).sum = 0 := by
        rw [hm2v] at hmean
        rcases div_eq_zero_iff.mp hmean.symm with hz | hz
        · exact hz
        · exact absurd (Nat.cast_eq_zero.mp hz) hlen
      rw [hpa] at hppa
      rw [hppa] at hsum
      exact hppg p hp hsum
    rcases except_bind_error hcontra with h4 | ⟨per, h4, hcontra⟩
    · obtain ⟨r, hr, hf⟩ := emapM_error_mem h4
      rcases except_bind_error hf with ha | ⟨m, hmj, hf⟩
      · cases dlookupE_error ha
      rcases except_bind_error hf with ha | ⟨mr, hmrj, hf⟩
      · cases dlookupE_error ha
      rcases except_bind_error hf with ha | ⟨c, hcj, hf⟩
      · cases dlookupE_error ha
      rcases except_bind_error hf with ha | ⟨cr, hcrj, hf⟩
      · cases dlookupE_error ha
      cases hf
    cases hcontra
  · with_unfolding_all decide

/-- C8 witness: a concrete run on nonzero-scoring rosters, the calculator
does not fail with the division-by-zero error. -/
theorem C8_witness :
    calculate_points_per_game_and_consistency_rankings (defaultConfig 1) (fun _ => 0)
        [1, 2] [(1, [⟨60, 1⟩]), (2, [⟨70, 1⟩])] ≠ .error .zeroDivisionError :=
  C8.1 (defaultConfig 1) (fun _ => 0) [1, 2] [(1, [⟨60, 1⟩]), (2, [⟨70, 1⟩])]
    (by with_unfolding_all decide) (by with_unfolding_all decide)

/-- C2 counterexample: on the metric map with roster ids 5 and 7, the rank
helper's result is NOT defined on the input ids — looking up roster id 5
yields nothing (the returned dict is keyed by the rank positions 1 and 2 of
the ids, an artifact of ranking both matrix columns). -/
theorem C2_cex :
    dlookup (rank_data_keyed_by_roster_id [(5, (1 : ℚ)), (7, 2)] 0) 5 = none
      ∧ 5 ∈ ([(5, (1 : ℚ)), (7, 2)].map Prod.fst) := by
  with_unfolding_all decide

/-- C2 amended: for either sense, the rank helper returns a total mapping
defined on exactly the 1-based ascending rank positions 1..N of the input
roster ids (coinciding with the ids exactly when they are 1..N); every
assigned value rank lies in [1, N]; entries with equal metric values receive
one identical rank, equal to one plus the number of entries with strictly
better (sense-adjusted) metric value — the minimum 1-based ordinal position
of their tie group; and the resulting mapping is independent of the input's
iteration order. -/
theorem C2_amended (s : Nat) :
    (∀ l : List (Nat × ℚ), (l.map Prod.fst).Nodup → ∀ k : Nat,
        (dlookup (rank_data_keyed_by_roster_id l s) k).isSome ↔ 1 ≤ k ∧ k ≤ l.length)
    ∧ (∀ l : List (Nat × ℚ), ∀ e ∈ rank_data_keyed_by_roster_id l s,
        1 ≤ e.2 ∧ e.2 ≤ l.length)
    ∧ (∀ (l : List (Nat × ℚ)) (p q : Nat × ℚ), p ∈ l → q ∈ l → p.2 = q.2 →
        assignedRank l s p = assignedRank l s q
          ∧ assignedRank l s p
            = 1 + (l.filter fun q2 =>
                decide (adjustValue s q2.2 < adjustValue s p.2)).length)
    ∧ ∀ l1 l2 : List (Nat × ℚ), l1.Perm l2 → (l1.map Prod.fst).Nodup → ∀ k,
        dlookup (rank_data_keyed_by_roster_id l1 s) k
          = dlookup (rank_data_keyed_by_roster_id l2 s) k :=
  ⟨fun _ hnd k => rank_data_isSome_iff hnd k,
    fun _ => rank_data_rank_bounds,
    fun l p q _ _ hpq => ⟨assignedRank_congr l s hpq, assignedRank_eq_count l s p⟩,
    fun _ _ hperm hnd k => rank_data_perm hperm s hnd k⟩

/-- C2 amended witness: on a concrete two-entry tied map, rank position 2 is
a key of the result, and the lookup is unchanged under swapping the input
order. -/
theorem C2_amended_witness :
    (dlookup (rank_data_keyed_by_roster_id [(1, (3 : ℚ)), (2, 3)] 0) 2).isSome
      ∧ dlookup (rank_data_keyed_by_roster_id [(1, (3 : ℚ)), (2, 3)] 0) 1
        = dlookup (rank_data_keyed_by_roster_id [(2, (3 : ℚ)), (1, 3)] 0) 1 :=
  ⟨((C2_amended 0).1 [(1, (3 : ℚ)), (2, 3)] (by with_unfolding_all decide) 2).mpr
      (by with_unfolding_all decide),
    (C2_amended 0).2.2.2 [(1, (3 : ℚ)), (2, 3)] [(2, (3 : ℚ)), (1, 3)]
      (List.Perm.swap (2, (3 : ℚ)) (1, 3) []) (by with_unfolding_all decide) 1⟩

/-- C9 counterexample: on a concrete two-roster run in which the directory's
first roster finishes with power rank 2, the exported row sequence carries
power ranks [2, 1] — the rows are NOT ordered best rank first. -/
theorem C9_cex :
    (runPipeline (defaultConfig 1) (fun _ => 0) [(1, "A"), (2, "B")]
        [[⟨1, 50, 1⟩, ⟨2, 100, 1⟩]] (fun r => if r = 1 then 2 else 1)).map
      (fun rows => rows.map fun r => r.power_rank) = .ok [2, 1] := by
  with_unfolding_all decide

/-- C9 amended: the rows handed to the report sink are emitted one per
directory roster, in the roster directory's iteration order (each row carrying
its final rank in the POWER RANK field); they are not sorted by composite
rank. -/
theorem C9_amended {cfg : Config} {stdevVal : List ℚ → ℚ}
    {directory : List (Nat × String)} {weeks : List (List MatchupEntry)}
    {rosInput : Nat → ℤ} {rows : List Row}
    (h : runPipeline cfg stdevVal directory weeks rosInput = .ok rows) :
    rows.map Row.member = directory.map Prod.snd := by
  unfold runPipeline at h
  dsimp only at h
  obtain ⟨so, h1, h⟩ := except_bind_ok h
  obtain ⟨wo, h2, h⟩ := except_bind_ok h
  obtain ⟨pf, h3, h⟩ := except_bind_ok h
  unfold export_to_csv at h
  refine emapM_ok_map ?_ h
  intro p row hrow
  obtain ⟨pw, hpw, hrow⟩ := except_bind_ok hrow
  obtain ⟨sc, hsc, hrow⟩ := except_bind_ok hrow
  obtain ⟨wf, hwf, hrow⟩ := except_bind_ok hrow
  obtain ⟨ros, hros, hrow⟩ := except_bind_ok hrow
  have hr := Except.ok.inj hrow
  rw [← hr]

/-- C9 amended witness: a successful concrete run's rows carry the directory
names in directory order. -/
theorem C9_amended_witness :
    (runPipeline (defaultConfig 1) (fun _ => 0) [(1, "A"), (2, "B")]
        [[⟨1, 100, 1⟩, ⟨2, 90, 1⟩]] (fun _ => 1)).map
      (fun rows => rows.map Row.member) = .ok ["A", "B"] := by
  rcases hrun : runPipeline (defaultConfig 1) (fun _ => 0) [(1, "A"), (2, "B")]
      [[⟨1, 100, 1⟩, ⟨2, 90, 1⟩]] (fun _ => 1) with e | rows
  · have h2 : (runPipeline (defaultConfig 1) (fun _ => 0) [(1, "A"), (2, "B")]
        [[⟨1, 100, 1⟩, ⟨2, 90, 1⟩]] (fun _ => 1)).map
        (fun rows => rows.map Row.member) = .ok ["A", "B"] := by
      with_unfolding_all decide
    rw [hrun] at h2
    exact absurd h2 (by simp [Except.map])
  · simp only [Except.map]
    rw [C9_amended hrun]
    rfl

theorem recordInner_ok_mem {dirKeys : List Nat} {thr : ℤ} {i : Nat}
    {p : Nat × List PerRosterWeeklyData} :
    ∀ {others : List (Nat × List PerRosterWeeklyData)} {st st2 : RecState},
      efoldlM (fun s q => if p.1 ≠ q.1 then recordPairStep dirKeys thr i p.1 p.2 q.2 s
        else .ok s) st others = .ok st2 →
      ∀ q ∈ others, q.1 ≠ p.1 → p.1 ∈ dirKeys := by
  intro others
  induction others with
  | nil =>
      intro st st2 _ q hq
      cases hq
  | cons q0 t ih =>
      intro st st2 h q hq hqp
      rw [efoldlM_cons] at h
      obtain ⟨s1, h1, h2⟩ := except_bind_ok h
      rcases List.mem_cons.mp hq with rfl | hq2
      · rw [if_pos (Ne.symm hqp)] at h1
        obtain ⟨x, y, _, _, hmem, _⟩ := recordPairStep_ok_inv h1
        exact hmem
      · exact ih h2 q hq2 hqp

theorem range_head_split {W : Nat} (hW : 1 ≤ W) :
    ∃ rest, List.range W = 0 :: rest := by
  cases hw : W with
  | zero => omega
  | succ n => exact ⟨(List.range n).map Nat.succ, List.range_succ_eq_map n⟩

/-- C10 counterexample: with directory rosters 1 and 2 but weekly data for
roster 1 only, the scoring calculation fails with the statistics error of
taking the mean of roster 2's empty observation sequence — not with a
per-roster lookup (key) failure nor a per-week indexing failure as the claim
asserts. -/
theorem C10_cex :
    calculate_points_per_game_and_consistency_rankings (defaultConfig 1) (fun _ => 0)
        [1, 2] [(1, [⟨10, 1⟩])] = .error .statisticsError := by
  with_unfolding_all decide

/-- C10 amended: the calculations are total together only when the store and
directory key sets agree.  Whenever the scoring calculator succeeds with at
least one completed week, every store roster is a directory roster (its
accumulator append would otherwise fail with a key error) and every directory
roster appears in the store (its mean would otherwise fail on an empty
sequence — a statistics failure, not a lookup or indexing one); and whenever
the record tallying succeeds with at least one completed week, every store
roster that meets at least one distinct-keyed opponent is a directory roster
(its accumulator access would otherwise fail with a key error). -/
theorem C10_amended :
    (∀ (cfg : Config) (stdevVal : List ℚ → ℚ) (dirKeys : List Nat) (store : Store)
        (out : ScoringOut), 1 ≤ cfg.latest_finished_week →
        calculate_points_per_game_and_consistency_rankings cfg stdevVal dirKeys store
          = .ok out →
        (∀ p ∈ store, p.1 ∈ dirKeys) ∧ ∀ r ∈ dirKeys, r ∈ store.map Prod.fst)
    ∧ ∀ (cfg : Config) (dirKeys : List Nat) (store : Store) (st : RecState),
        1 ≤ cfg.latest_finished_week →
        recordAccum cfg dirKeys store = .ok st →
        ∀ p ∈ store, (∃ q ∈ store, q.1 ≠ p.1) → p.1 ∈ dirKeys := by
  constructor
  · intro cfg stdevVal dirKeys store out hW h
    obtain ⟨pp, msd, cons, per, h1, h2, h3, h4, hout⟩ := scoring_ok_inv h
    constructor
    · intro p hp
      unfold ppAccum at h1
      obtain ⟨rest, hrest⟩ := range_head_split hW
      rw [hrest, efoldlM_cons] at h1
      obtain ⟨pp1, hw0, _⟩ := except_bind_ok h1
      obtain ⟨u, u2, hu⟩ := efoldlM_ok_forall hw0 p hp
      obtain ⟨x, _, hmem, _⟩ := ppStep_ok_inv hu
      exact hmem
    · intro r hr
      obtain ⟨b, hbmem, hfb⟩ := emapM_ok_forall h2 r hr
      obtain ⟨m, hm, _⟩ := except_bind_ok hfb
      obtain ⟨hlen, _⟩ := meanE_ok hm
      by_contra hax
      exact hlen (by rw [ppAccum_not_mem_nil h1 r hax]; rfl)
  · intro cfg dirKeys store st hW h p hp hex
    obtain ⟨q, hq, hqp⟩ := hex
    unfold recordAccum at h
    obtain ⟨rest, hrest⟩ := range_head_split hW
    rw [hrest, efoldlM_cons] at h
    obtain ⟨st1, hw0, _⟩ := except_bind_ok h
    unfold recordWeek at hw0
    obtain ⟨u, u2, hu⟩ := efoldlM_ok_forall hw0 p hp
    exact recordInner_ok_mem hu q hq hqp

/-- C10 amended witness: a concrete matching-key run succeeds, and both
inclusions hold at the sample rosters. -/
theorem C10_amended_witness :
    ((1 : Nat), ([⟨40, 1⟩] : List PerRosterWeeklyData)).1 ∈ ([1, 2] : List Nat)
      ∧ (2 : Nat) ∈ (([(1, [⟨40, 1⟩]), (2, [⟨50, 1⟩])] : Store).map Prod.fst) := by
  rcases hs : calculate_points_per_game_and_consistency_rankings (defaultConfig 1)
      (fun _ => 0) [1, 2] [(1, [⟨40, 1⟩]), (2, [⟨50, 1⟩])] with e | out
  · have h2 : (calculate_points_per_game_and_consistency_rankings (defaultConfig 1)
        (fun _ => 0) [1, 2] [(1, [⟨40, 1⟩]), (2, [⟨50, 1⟩])]).map (fun _ => true)
        = .ok true := by with_unfolding_all decide
    rw [hs] at h2
    exact absurd h2 (by simp [Except.map])
  · have hmain := C10_amended.1 (defaultConfig 1) (fun _ => 0) [1, 2]
      [(1, [⟨40, 1⟩]), (2, [⟨50, 1⟩])] out (by decide) hs
    exact ⟨hmain.1 (1, [⟨40, 1⟩]) (by with_unfolding_all decide),
      hmain.2 2 (by decide)⟩

end SleeperPR
